import Mathlib

/-!
# Executable-memory management of the JIT code generator

A shallow embedding of `JITMemoryTracker.cpp`, `MemoryUtil_iOS*.cpp` and
`MemoryFunction.cpp`.

Conventions of the embedding

* An address (`void*`, `uint8_t*`, `vm_address_t`) is a natural number, `0` is `nullptr`.
* `size_t` / `uintptr_t` arithmetic is taken modulo `2^64`, `unsigned int` modulo `2^32`.
* Host primitives (`mmap`, `vm_remap`, `lwmem_malloc`, ...) are parameters of the model:
  a `Host` record gives the result each of them returns; the calls that change the
  address space are recorded, in order, in a list of `HostCall`.
* The registry's `std::map<void*, JITRegion>` is the list of its (key, value) pairs in
  iteration order (ascending key).
* `JITRegion::nesting_counter` is a C++ `int`; it is an integer here. Signed overflow
  (2^31 unmatched calls on one region) and comparison of pointers past the end of the
  address space are undefined behaviour in C++ and are outside the model: the end of a
  region is the exact sum `start + size`.
* The mutex of the registry is not modelled: calls are atomic and sequential.
* Memory contents are not modelled, but whether a copy completes is: `memcpy` into a block
  that is null, failed, or smaller than the bytes copied faults, and the constructor then
  builds no handle.
-/

namespace CodeGen

/-! ## Host interface -/

/-- Page protection: a subset of read, write, execute. -/
structure Prot where
  read : Bool
  write : Bool
  exec : Bool
  deriving DecidableEq, Repr

/-- Protection `PROT_READ | PROT_WRITE`. -/
def PROT_RW : Prot := ⟨true, true, false⟩

/-- Protection `PROT_READ | PROT_EXEC`. -/
def PROT_RX : Prot := ⟨true, false, true⟩

/-- Protection read, write and execute (`PAGE_EXECUTE_READWRITE`,
`VM_PROT_READ | VM_PROT_WRITE | VM_PROT_EXECUTE`). -/
def PROT_RWX : Prot := ⟨true, true, true⟩

/-- Calls to the host that change the address space or hand memory back. -/
inductive HostCall
  | mprotect (addr size : Nat) (prot : Prot)
  | munmap (addr size : Nat)
  | vm_deallocate (addr size : Nat)
  | vm_protect (addr size : Nat) (prot : Prot)
  | VirtualProtect (addr size : Nat) (prot : Prot)
  | lwmem_free (ptr : Nat)
  | framework_aligned_free (ptr : Nat)
  | WasmDeleteFunction (fctId : Nat)
  deriving DecidableEq, Repr

/-! ## JITMemoryTracker -/

/-- The struct `JITMemoryTracker::JITRegion`. -/
structure JITRegion where
  start : Nat
  size : Nat
  nesting_counter : Int
  deriving DecidableEq, Repr

/-- The test of `FindRegion`:
`ptr >= region.start && ptr < static_cast<char*>(region.start) + region.size`. -/
def JITRegion.contains (region : JITRegion) (ptr : Nat) : Bool :=
  decide (ptr ≥ region.start) && decide (ptr < region.start + region.size)

/-- The class `JITMemoryTracker`: `m_regions` in iteration order. -/
structure JITMemoryTracker where
  m_regions : List (Nat × JITRegion)
  deriving DecidableEq, Repr

/-- Assignment `m[key] = value` on a `std::map` given as its ascending list of pairs. -/
def mapAssign (key : Nat) (value : JITRegion) : List (Nat × JITRegion) → List (Nat × JITRegion)
  | [] => [(key, value)]
  | pair :: rest =>
    if key < pair.1 then (key, value) :: pair :: rest
    else if key = pair.1 then (key, value) :: rest
    else pair :: mapAssign key value rest

/-- Erasure `m.erase(key)` on a `std::map` given as its list of pairs. -/
def mapErase (key : Nat) (m : List (Nat × JITRegion)) : List (Nat × JITRegion) :=
  m.filter (fun pair => decide (pair.1 ≠ key))

/-- `JITMemoryTracker::RegisterJITRegion`: `m_regions[ptr] = {ptr, size, 0}`. -/
def RegisterJITRegion (t : JITMemoryTracker) (ptr size : Nat) : JITMemoryTracker :=
  ⟨mapAssign ptr ⟨ptr, size, 0⟩ t.m_regions⟩

/-- `JITMemoryTracker::UnregisterJITRegion`: `m_regions.erase(ptr)`. -/
def UnregisterJITRegion (t : JITMemoryTracker) (ptr : Nat) : JITMemoryTracker :=
  ⟨mapErase ptr t.m_regions⟩

/-- `JITMemoryTracker::FindRegion`: the first region, in iteration order, that contains
`ptr`; `none` is `nullptr`. -/
def FindRegion : List (Nat × JITRegion) → Nat → Option JITRegion
  | [], _ => none
  | pair :: rest, ptr => if pair.2.contains ptr then some pair.2 else FindRegion rest ptr

/-- A write through the pointer returned by `FindRegion(ptr)`: the value of the first
region that contains `ptr` is replaced. -/
def storeRegion : List (Nat × JITRegion) → Nat → JITRegion → List (Nat × JITRegion)
  | [], _, _ => []
  | pair :: rest, ptr, value =>
    if pair.2.contains ptr then (pair.1, value) :: rest
    else pair :: storeRegion rest ptr value

/-- `JITMemoryTracker::JITRegionWriteEnableExecuteDisable`: the tracker after the call and
the host calls issued. The result of `mprotect` is ignored, as in the source. -/
def JITRegionWriteEnableExecuteDisable (t : JITMemoryTracker) (ptr : Nat) :
    JITMemoryTracker × List HostCall :=
  match FindRegion t.m_regions ptr with
  | some region =>
    (⟨storeRegion t.m_regions ptr
        ⟨region.start, region.size, region.nesting_counter + 1⟩⟩,
      if region.nesting_counter = 0 then
        [HostCall.mprotect region.start region.size PROT_RW]
      else [])
  | none => (t, [])

/-- `JITMemoryTracker::JITRegionWriteDisableExecuteEnable`: the tracker after the call and
the host calls issued. -/
def JITRegionWriteDisableExecuteEnable (t : JITMemoryTracker) (ptr : Nat) :
    JITMemoryTracker × List HostCall :=
  match FindRegion t.m_regions ptr with
  | some region =>
    (⟨storeRegion t.m_regions ptr
        ⟨region.start, region.size, region.nesting_counter - 1⟩⟩,
      if region.nesting_counter - 1 = 0 then
        [HostCall.mprotect region.start region.size PROT_RX]
      else [])
  | none => (t, [])

/-- Runs `n` consecutive calls `op(ptr)` on the tracker, collecting the host calls. -/
def repeatCall (op : JITMemoryTracker → Nat → JITMemoryTracker × List HostCall)
    (ptr : Nat) : Nat → JITMemoryTracker → JITMemoryTracker × List HostCall
  | 0, t => (t, [])
  | n + 1, t =>
    ((repeatCall op ptr n (op t ptr).1).1, (op t ptr).2 ++ (repeatCall op ptr n (op t ptr).1).2)

/-! ## Machine arithmetic -/

/-- Number of values of a 64-bit word (`size_t`, `uintptr_t`, a pointer). -/
def WORD : Nat := 18446744073709551616

/-- Addition of `size_t` / `uintptr_t` values. -/
def add64 (a b : Nat) : Nat := (a + b) % WORD

/-- Subtraction of `size_t` / `uintptr_t` values. -/
def sub64 (a b : Nat) : Nat := (a + (WORD - b % WORD)) % WORD

/-- Bitwise complement `~a` of a `size_t` value. -/
def not64 (a : Nat) : Nat := WORD - 1 - a % WORD

/-- Pointer difference `a - b` as a `ptrdiff_t` (two's complement, 64 bits). -/
def ptrdiff (a b : Nat) : Int := ((a : Int) - (b : Int) + 9223372036854775808) % 18446744073709551616
  - 9223372036854775808

/-- Pointer displacement `p + d` for a byte pointer `p` and a `ptrdiff_t` `d`. -/
def ptrAdd (p : Nat) (d : Int) : Nat := (((p : Int) + d) % 18446744073709551616).toNat

/-- The constant `MAP_FAILED`, `(void*)-1`. -/
def MAP_FAILED : Nat := WORD - 1

/-- Width of a pointer, `sizeof(void*)`, on the 64-bit targets of this code. -/
def SIZEOF_PTR : Nat := 8

/-! ## MemoryUtil (iOS) -/

/-- The enum `JitType`. -/
inductive JitType
  | Legacy
  | LuckNoTXM
  | LuckTXM
  deriving DecidableEq, Repr

/-- The constant `EXECUTABLE_REGION_SIZE`: 512 MiB. -/
def EXECUTABLE_REGION_SIZE : Nat := 536870912

/-- What the host returns to the calls made by `MemoryUtil_iOS*.cpp`.

* `mmap size prot`: the result of `mmap(nullptr, size, prot, MAP_ANON | MAP_PRIVATE, -1, 0)`,
  an address or `MAP_FAILED`;
* `vm_remap target size`: `none` when `vm_remap` does not return `KERN_SUCCESS`, otherwise
  the address written to `rw_region`;
* `mprotect addr size prot`: `true` when `mprotect` returns 0;
* `lwmem_assignmem addr size`: the number of regions accepted, 0 on failure;
* `lwmem_malloc size`: the block returned, `0` for `NULL`;
* `pagesize`: `sysconf(_SC_PAGESIZE)`. -/
structure Host where
  mmap : Nat → Prot → Nat
  vm_remap : Nat → Nat → Option Nat
  mprotect : Nat → Nat → Prot → Bool
  lwmem_assignmem : Nat → Nat → Nat
  lwmem_malloc : Nat → Nat
  pagesize : Nat

/-- The globals of `MemoryUtil_iOS*.cpp`, and the pointer-sized words the allocator keeps in
the writable arena (`words a` is the pointer stored at byte address `a`). -/
structure MemoryUtilState where
  g_jit_type : JitType
  g_rx_region : Nat
  g_rw_region_diff : Int
  g_jit_memory_tracker : JITMemoryTracker
  words : Nat → Nat

/-- The globals at program start: `g_jit_type = JitType::LuckTXM`, `g_rx_region = nullptr`,
`g_rw_region_diff = 0`, an empty tracker. -/
def MemoryUtilState.initial : MemoryUtilState :=
  ⟨JitType.LuckTXM, 0, 0, ⟨[]⟩, fun _ => 0⟩

/-- A store of a pointer: `*(void**)addr = value`. -/
def storeWord (words : Nat → Nat) (addr value : Nat) : Nat → Nat :=
  fun a => if a = addr then value else words a

/-- `SetJitType`. -/
def SetJitType (st : MemoryUtilState) (type : JitType) : MemoryUtilState :=
  { st with g_jit_type := type }

/-- `AllocateExecutableMemory_Legacy`: the state after the call and the pointer returned. -/
def AllocateExecutableMemory_Legacy (host : Host) (st : MemoryUtilState) (size : Nat) :
    MemoryUtilState × Nat :=
  let ptr := host.mmap size PROT_RX
  let ptr := if ptr = MAP_FAILED then 0 else ptr
  if ptr = 0 then (st, 0)
  else
    ({ st with g_jit_memory_tracker := RegisterJITRegion st.g_jit_memory_tracker ptr size },
      ptr)

/-- `FreeExecutableMemory_Legacy`: the state after the call and the host calls issued. -/
def FreeExecutableMemory_Legacy (st : MemoryUtilState) (ptr size : Nat) :
    MemoryUtilState × List HostCall :=
  if ptr ≠ 0 then
    ({ st with g_jit_memory_tracker := UnregisterJITRegion st.g_jit_memory_tracker ptr },
      [HostCall.munmap ptr size])
  else (st, [])

/-- `JITPageWriteEnableExecuteDisable_Legacy`. -/
def JITPageWriteEnableExecuteDisable_Legacy (st : MemoryUtilState) (ptr : Nat) :
    MemoryUtilState × List HostCall :=
  ({ st with g_jit_memory_tracker :=
      (JITRegionWriteEnableExecuteDisable st.g_jit_memory_tracker ptr).1 },
    (JITRegionWriteEnableExecuteDisable st.g_jit_memory_tracker ptr).2)

/-- `JITPageWriteDisableExecuteEnable_Legacy`. -/
def JITPageWriteDisableExecuteEnable_Legacy (st : MemoryUtilState) (ptr : Nat) :
    MemoryUtilState × List HostCall :=
  ({ st with g_jit_memory_tracker :=
      (JITRegionWriteDisableExecuteEnable st.g_jit_memory_tracker ptr).1 },
    (JITRegionWriteDisableExecuteEnable st.g_jit_memory_tracker ptr).2)

/-- `AllocateExecutableMemory_LuckNoTXM`: the pointer returned. -/
def AllocateExecutableMemory_LuckNoTXM (host : Host) (size : Nat) : Nat :=
  let rx_ptr := host.mmap size PROT_RX
  if rx_ptr = 0 ∨ rx_ptr = MAP_FAILED then 0 else rx_ptr

/-- `FreeExecutableMemory_LuckNoTXM`: the host calls issued. -/
def FreeExecutableMemory_LuckNoTXM (ptr size : Nat) : List HostCall :=
  if ptr ≠ 0 then [HostCall.munmap ptr size] else []

/-- `AllocateWritableRegionAndGetDiff_LuckNoTXM`: the offset returned and the host calls
issued after the remap. -/
def AllocateWritableRegionAndGetDiff_LuckNoTXM (host : Host) (rx_ptr size : Nat) :
    Int × List HostCall :=
  match host.vm_remap rx_ptr size with
  | none => (0, [])
  | some rw_region =>
    if host.mprotect rw_region size PROT_RW = false then
      (0, [HostCall.mprotect rw_region size PROT_RW, HostCall.vm_deallocate rw_region size])
    else
      (ptrdiff rw_region rx_ptr, [HostCall.mprotect rw_region size PROT_RW])

/-- `FreeWritableRegion_LuckNoTXM`: the host calls issued. -/
def FreeWritableRegion_LuckNoTXM (rx_ptr size : Nat) (diff : Int) : List HostCall :=
  [HostCall.vm_deallocate (ptrAdd rx_ptr diff) size]

/-- `AllocateExecutableMemoryRegion_LuckTXM`: the state after the call and the host calls
issued. The `brk #0x69` signal to the monitor returns nothing to the program and is not
modelled. -/
def AllocateExecutableMemoryRegion_LuckTXM (host : Host) (st : MemoryUtilState) :
    MemoryUtilState × List HostCall :=
  if st.g_rx_region ≠ 0 then (st, [])
  else
    let size := EXECUTABLE_REGION_SIZE
    let rx_ptr := host.mmap size PROT_RX
    if rx_ptr = 0 ∨ rx_ptr = MAP_FAILED then (st, [])
    else
      match host.vm_remap rx_ptr size with
      | none => (st, [HostCall.munmap rx_ptr size])
      | some rw_region =>
        if host.mprotect rw_region size PROT_RW = false then
          (st, [HostCall.mprotect rw_region size PROT_RW, HostCall.munmap rx_ptr size,
            HostCall.vm_deallocate rw_region size])
        else if host.lwmem_assignmem rw_region size = 0 then
          (st, [HostCall.mprotect rw_region size PROT_RW, HostCall.munmap rx_ptr size,
            HostCall.vm_deallocate rw_region size])
        else
          ({ st with g_rx_region := rx_ptr, g_rw_region_diff := ptrdiff rw_region rx_ptr },
            [HostCall.mprotect rw_region size PROT_RW])

/-- `AllocateWritableRegionAndGetDiff_LuckTXM`. -/
def AllocateWritableRegionAndGetDiff_LuckTXM (st : MemoryUtilState) : Int :=
  st.g_rw_region_diff

/-- The page-aligned address computed by `AllocateExecutableMemory_LuckTXM` from the raw
block: `raw_addr = raw + sizeof(void*)`,
`aligned = (raw_addr + pagesize - 1) & ~(pagesize - 1)`. -/
def alignedOf (raw pagesize : Nat) : Nat :=
  (sub64 (add64 (add64 raw SIZEOF_PTR) pagesize) 1) &&& (not64 (sub64 pagesize 1))

/-- The size requested from the sub-allocator by `AllocateExecutableMemory_LuckTXM`:
`size + pagesize - 1 + sizeof(void*)`. -/
def requestOf (size pagesize : Nat) : Nat :=
  add64 (sub64 (add64 size pagesize) 1) SIZEOF_PTR

/-- `AllocateExecutableMemory_LuckTXM`: the state after the call and the pointer returned. -/
def AllocateExecutableMemory_LuckTXM (host : Host) (st : MemoryUtilState) (size : Nat) :
    MemoryUtilState × Nat :=
  if st.g_rx_region = 0 then (st, 0)
  else
    let pagesize := host.pagesize
    let raw := host.lwmem_malloc (requestOf size pagesize)
    if raw = 0 then (st, 0)
    else
      let aligned := alignedOf raw pagesize
      ({ st with words := storeWord st.words (sub64 aligned SIZEOF_PTR) raw },
        ptrAdd aligned (- st.g_rw_region_diff))

/-- `FreeExecutableMemory_LuckTXM`: the host calls issued. -/
def FreeExecutableMemory_LuckTXM (st : MemoryUtilState) (ptr : Nat) : List HostCall :=
  if ptr = 0 then []
  else
    let rw_ptr := ptrAdd ptr st.g_rw_region_diff
    let raw := st.words (sub64 rw_ptr SIZEOF_PTR)
    [HostCall.lwmem_free raw]

/-- `AllocateExecutableMemory`. -/
def AllocateExecutableMemory (host : Host) (st : MemoryUtilState) (size : Nat) :
    MemoryUtilState × Nat :=
  match st.g_jit_type with
  | JitType.LuckTXM => AllocateExecutableMemory_LuckTXM host st size
  | JitType.LuckNoTXM => (st, AllocateExecutableMemory_LuckNoTXM host size)
  | JitType.Legacy => AllocateExecutableMemory_Legacy host st size

/-- `FreeExecutableMemory`. -/
def FreeExecutableMemory (st : MemoryUtilState) (ptr size : Nat) :
    MemoryUtilState × List HostCall :=
  match st.g_jit_type with
  | JitType.LuckTXM => (st, FreeExecutableMemory_LuckTXM st ptr)
  | JitType.LuckNoTXM => (st, FreeExecutableMemory_LuckNoTXM ptr size)
  | JitType.Legacy => FreeExecutableMemory_Legacy st ptr size

/-- `AllocateExecutableMemoryRegion`. -/
def AllocateExecutableMemoryRegion (host : Host) (st : MemoryUtilState) :
    MemoryUtilState × List HostCall :=
  if st.g_jit_type = JitType.LuckTXM then AllocateExecutableMemoryRegion_LuckTXM host st
  else (st, [])

/-- `AllocateWritableRegionAndGetDiff`. -/
def AllocateWritableRegionAndGetDiff (host : Host) (st : MemoryUtilState)
    (rx_ptr size : Nat) : Int × List HostCall :=
  match st.g_jit_type with
  | JitType.LuckTXM => (AllocateWritableRegionAndGetDiff_LuckTXM st, [])
  | JitType.LuckNoTXM => AllocateWritableRegionAndGetDiff_LuckNoTXM host rx_ptr size
  | JitType.Legacy => (0, [])

/-- `FreeWritableRegion`. -/
def FreeWritableRegion (st : MemoryUtilState) (rx_ptr size : Nat) (diff : Int) :
    List HostCall :=
  if st.g_jit_type = JitType.LuckNoTXM then FreeWritableRegion_LuckNoTXM rx_ptr size diff
  else []

/-- `JITPageWriteEnableExecuteDisable`. -/
def JITPageWriteEnableExecuteDisable (st : MemoryUtilState) (ptr : Nat) :
    MemoryUtilState × List HostCall :=
  if st.g_jit_type = JitType.Legacy then JITPageWriteEnableExecuteDisable_Legacy st ptr
  else (st, [])

/-- `JITPageWriteDisableExecuteEnable`. -/
def JITPageWriteDisableExecuteEnable (st : MemoryUtilState) (ptr : Nat) :
    MemoryUtilState × List HostCall :=
  if st.g_jit_type = JitType.Legacy then JITPageWriteDisableExecuteEnable_Legacy st ptr
  else (st, [])

/-! ## CMemoryFunction -/

/-- Number of values of an `unsigned int`. -/
def UINT : Nat := 4294967296

/-- Multiplication of `size_t` values. -/
def mul64 (a b : Nat) : Nat := (a * b) % WORD

/-- The constant `BLOCK_ALIGN`. -/
def BLOCK_ALIGN : Nat := 16

/-- The platform `MemoryFunction.cpp` is compiled for, which selects the backend:
`win32` is `_WIN32` (`MEMFUNC_USE_WIN32`); `macos` is `__APPLE__` with `TARGET_OS_OSX`
(`MEMFUNC_USE_MMAP`); `iphone` is `__APPLE__` with `TARGET_OS_IPHONE` (`MEMFUNC_USE_MACHVM`,
strict protection, and the TXM block); `appleOther` is `__APPLE__` with neither
(`MEMFUNC_USE_MACHVM`); `emscripten` is `MEMFUNC_USE_WASM`; `other` is `MEMFUNC_USE_MMAP`. -/
inductive Target
  | win32
  | macos
  | iphone
  | appleOther
  | emscripten
  | other
  deriving DecidableEq, Repr

/-- Whether `__APPLE__` is defined. -/
def Target.apple : Target → Bool
  | Target.macos => true
  | Target.iphone => true
  | Target.appleOther => true
  | _ => false

/-- What the host returns to the calls made by `MemoryFunction.cpp`.

* `getenv_PLAY_HAS_TXM`: the bytes of the value of `PLAY_HAS_TXM`, `none` when unset;
* `BreakGetJITMapping_linked`: whether the weakly imported symbol is non-null;
* `host_page_size`: the page size written by `host_page_size`;
* `BreakGetJITMapping len`: the address returned by `BreakGetJITMapping(nullptr, len)`;
* `vm_remap target size`: `none` unless `KERN_SUCCESS`, otherwise the alias address;
* `vm_protect addr size prot`: `true` for `KERN_SUCCESS`;
* `vm_allocate size`: `none` when it fails (the address argument is left as it was),
  otherwise the address written;
* `mmap size`: the result of `mmap(nullptr, size, PROT_WRITE | PROT_EXEC, ...)`;
* `framework_aligned_alloc size`: the block returned for alignment `BLOCK_ALIGN`;
* `VirtualProtect addr size`: `true` for `TRUE`;
* `WasmCreateModule code size`: the handle of the module;
* `WasmCreateFunction module`: the function id. -/
structure FunctionHost where
  getenv_PLAY_HAS_TXM : Option (List Nat)
  BreakGetJITMapping_linked : Bool
  host_page_size : Nat
  BreakGetJITMapping : Nat → Nat
  vm_remap : Nat → Nat → Option Nat
  vm_protect : Nat → Nat → Prot → Bool
  vm_allocate : Nat → Option Nat
  mmap : Nat → Nat
  framework_aligned_alloc : Nat → Nat
  VirtualProtect : Nat → Nat → Bool
  WasmCreateModule : Nat → Nat → Nat
  WasmCreateFunction : Nat → Nat

/-- The class `CMemoryFunction`. Fields that exist on some platforms only keep their initial
value on the others; `m_wasmModule` is the handle of the module, 0 for an empty value. -/
structure CMemoryFunction where
  m_code : Nat
  m_size : Nat
  m_ios26TxmMode : Bool
  m_rxMemory : Nat
  m_rwAliasMemory : Nat
  m_wasmModule : Nat
  deriving DecidableEq, Repr

/-- The default constructor `CMemoryFunction::CMemoryFunction()`. -/
def CMemoryFunction.empty : CMemoryFunction := ⟨0, 0, false, 0, 0, 0⟩

/-- `CMemoryFunction::IsEmpty`. -/
def CMemoryFunction.IsEmpty (f : CMemoryFunction) : Bool := decide (f.m_code = 0)

/-- `CMemoryFunction::GetCode`. -/
def CMemoryFunction.GetCode (f : CMemoryFunction) : Nat := f.m_code

/-- `CMemoryFunction::GetSize`. -/
def CMemoryFunction.GetSize (f : CMemoryFunction) : Nat := f.m_size

/-- The test `(hasTxm != nullptr) && (hasTxm[0] == '1')`; 49 is the character `1`, and the
first byte of an empty value is the terminator 0. -/
def envTxm (host : FunctionHost) : Bool :=
  match host.getenv_PLAY_HAS_TXM with
  | some (c :: _) => decide (c = 49)
  | _ => false

/-- The size computed in the TXM block: `page_size` with its fallback, and
`allocSize = ((size + page_size - 1) / page_size) * page_size` as a `size_t`. -/
def txmAllocSize (host : FunctionHost) (size : Nat) : Nat :=
  let page_size := if host.host_page_size = 0 then 16384 else host.host_page_size
  mul64 (sub64 (add64 size page_size) 1 / page_size) page_size

/-- Whether `memcpy(dst, src, size)` completes, for a destination block of `capacity` bytes
at `dst` (`capacity` is 0 when the allocation failed; a block is taken to hold exactly the
bytes that were requested). A copy of 0 bytes always completes; any other copy completes
when `dst` is not null and the block holds `size` bytes. Otherwise the copy writes outside
the block: the process faults and no handle is built. -/
def memcpyCompletes (dst capacity size : Nat) : Bool :=
  decide (size = 0) || (decide (dst ≠ 0) && decide (size ≤ capacity))

/-- How the TXM block of the constructor ends: it built the handle and returned, or control
fell through to the legacy code, or the copy of the code image faulted. -/
inductive TxmOutcome
  | built (f : CMemoryFunction) (calls : List HostCall)
  | fellThrough (calls : List HostCall)
  | faulted
  deriving DecidableEq, Repr

/-- The body of the TXM block of the constructor, entered when
`m_ios26TxmMode && BreakGetJITMapping != nullptr`, with the host calls issued. The copy
`memcpy((void*)rwAddress, code, size)` goes into the alias of `allocSize` bytes. -/
def txmBlock (host : FunctionHost) (size : Nat) : TxmOutcome :=
  let allocSize := txmAllocSize host size
  let rx := host.BreakGetJITMapping allocSize
  if rx ≠ 0 then
    match host.vm_remap rx allocSize with
    | some rwAddress =>
      if host.vm_protect rwAddress allocSize PROT_RW then
        if memcpyCompletes rwAddress allocSize size then
          TxmOutcome.built ⟨rx, allocSize, true, rx, 0, 0⟩
            [HostCall.vm_protect rwAddress allocSize PROT_RW,
              HostCall.vm_deallocate rwAddress allocSize]
        else TxmOutcome.faulted
      else
        TxmOutcome.fellThrough [HostCall.vm_protect rwAddress allocSize PROT_RW,
          HostCall.vm_deallocate rwAddress allocSize]
    | none => TxmOutcome.fellThrough []
  else TxmOutcome.fellThrough []

/-- The size computed by the Mach-VM code:
`unsigned int allocSize = ((size + page_size - 1) / page_size) * page_size`; a division by a
zero page size is given the value 0. -/
def machvmAllocSize (host : FunctionHost) (size : Nat) : Nat :=
  (mul64 (sub64 (add64 size host.host_page_size) 1 / host.host_page_size)
    host.host_page_size) % UINT

/-- An `assert`: it is compiled out under `NDEBUG`, and aborts when its condition fails. -/
def assertHolds (ndebug cond : Bool) : Bool := ndebug || cond

/-- The Mach-VM part of the legacy code, with the protection `protection` of the platform:
`vm_allocate` (which leaves `m_code` null when it fails), the copy `memcpy(m_code, code,
size)` into the block of `allocSize` bytes, `vm_protect` with its `assert`, and the final
alignment `assert`. -/
def machvmConstruct (ndebug : Bool) (host : FunctionHost) (size : Nat) (txmMode : Bool)
    (protection : Prot) : Option (CMemoryFunction × List HostCall) :=
  let allocSize := machvmAllocSize host size
  let m_code := match host.vm_allocate allocSize with
    | some addr => addr
    | none => 0
  let capacity := match host.vm_allocate allocSize with
    | some _ => allocSize
    | none => 0
  if memcpyCompletes m_code capacity size
      && assertHolds ndebug (host.vm_protect m_code size protection)
      && assertHolds ndebug (decide (m_code &&& (BLOCK_ALIGN - 1) = 0)) then
    some (⟨m_code, allocSize, txmMode, 0, 0, 0⟩, [HostCall.vm_protect m_code size protection])
  else none

/-- The legacy part of the constructor, from `CODE LEGACY` to the end, run with the value
`txmMode` in `m_ios26TxmMode`. The result `none` means that the process died and no handle
was built: a failed `assert`, or a fault in the copy `memcpy(m_code, code, size)` of the
code image. `ClearCache` does not touch the fields and is not modelled. -/
def legacyConstruct (target : Target) (ndebug : Bool) (host : FunctionHost)
    (code size : Nat) (txmMode : Bool) : Option (CMemoryFunction × List HostCall) :=
  match target with
  | Target.win32 =>
    let m_code := host.framework_aligned_alloc size
    if memcpyCompletes m_code size size
        && assertHolds ndebug (host.VirtualProtect m_code size)
        && assertHolds ndebug (decide (m_code &&& (BLOCK_ALIGN - 1) = 0)) then
      some (⟨m_code, size, txmMode, 0, 0, 0⟩, [HostCall.VirtualProtect m_code size PROT_RWX])
    else none
  | Target.iphone => machvmConstruct ndebug host size txmMode PROT_RX
  | Target.appleOther => machvmConstruct ndebug host size txmMode PROT_RWX
  | Target.emscripten =>
    let m_wasmModule := host.WasmCreateModule code size
    some (⟨host.WasmCreateFunction m_wasmModule, size, txmMode, 0, 0, m_wasmModule⟩, [])
  | _ =>
    let m_code := host.mmap size
    if assertHolds ndebug (decide (m_code ≠ MAP_FAILED))
        && memcpyCompletes m_code (if m_code = MAP_FAILED then 0 else size) size
        && assertHolds ndebug (decide (m_code &&& (BLOCK_ALIGN - 1) = 0)) then
      some (⟨m_code, size, txmMode, 0, 0, 0⟩, [])
    else none

/-- The constructor `CMemoryFunction::CMemoryFunction(const void* code, size_t size)`: the
handle built and the host calls issued; `none` when the process died (a failed `assert` or
a fault in the copy of the code image) and no handle was built. -/
def CMemoryFunction.fromCode (target : Target) (ndebug : Bool) (host : FunctionHost)
    (code size : Nat) : Option (CMemoryFunction × List HostCall) :=
  let txmMode := target.apple && envTxm host
  if target = Target.iphone ∧ txmMode = true ∧ host.BreakGetJITMapping_linked = true then
    match txmBlock host size with
    | TxmOutcome.built f calls => some (f, calls)
    | TxmOutcome.fellThrough calls =>
      (legacyConstruct target ndebug host code size false).map
        (fun built => (built.1, calls ++ built.2))
    | TxmOutcome.faulted => none
  else legacyConstruct target ndebug host code size txmMode

/-- `CMemoryFunction::Reset`: the handle after the call and the host calls issued. -/
def CMemoryFunction.Reset (target : Target) (f : CMemoryFunction) :
    CMemoryFunction × List HostCall :=
  if f.m_code ≠ 0 then
    if target = Target.iphone ∧ f.m_ios26TxmMode = true then
      ({ f with m_rxMemory := 0, m_code := 0, m_size := 0 }, [])
    else
      match target with
      | Target.win32 =>
        ({ f with m_code := 0, m_size := 0 }, [HostCall.framework_aligned_free f.m_code])
      | Target.iphone =>
        ({ f with m_code := 0, m_size := 0 }, [HostCall.vm_deallocate f.m_code f.m_size])
      | Target.appleOther =>
        ({ f with m_code := 0, m_size := 0 }, [HostCall.vm_deallocate f.m_code f.m_size])
      | Target.emscripten =>
        ({ f with m_code := 0, m_size := 0, m_wasmModule := 0 },
          [HostCall.WasmDeleteFunction f.m_code])
      | _ =>
        ({ f with m_code := 0, m_size := 0 }, [HostCall.munmap f.m_code f.m_size])
  else
    (⟨0, 0, f.m_ios26TxmMode, f.m_rxMemory, f.m_rwAliasMemory,
        if target = Target.emscripten then 0 else f.m_wasmModule⟩, [])

/-- The move assignment `CMemoryFunction::operator=(CMemoryFunction&& rhs)` on two distinct
objects: the destination and the source after the call, and the host calls issued. -/
def CMemoryFunction.moveAssign (target : Target) (dst rhs : CMemoryFunction) :
    CMemoryFunction × CMemoryFunction × List HostCall :=
  let cleared := (CMemoryFunction.Reset target dst).1
  ({ m_code := rhs.m_code,
     m_size := rhs.m_size,
     m_ios26TxmMode := if target.apple then rhs.m_ios26TxmMode else cleared.m_ios26TxmMode,
     m_rxMemory := if target.apple then rhs.m_rxMemory else cleared.m_rxMemory,
     m_rwAliasMemory := cleared.m_rwAliasMemory,
     m_wasmModule :=
       if target = Target.emscripten then rhs.m_wasmModule else cleared.m_wasmModule },
   { m_code := cleared.m_code,
     m_size := cleared.m_size,
     m_ios26TxmMode := if target.apple then cleared.m_ios26TxmMode else rhs.m_ios26TxmMode,
     m_rxMemory := if target.apple then cleared.m_rxMemory else rhs.m_rxMemory,
     m_rwAliasMemory := rhs.m_rwAliasMemory,
     m_wasmModule :=
       if target = Target.emscripten then cleared.m_wasmModule else rhs.m_wasmModule },
   (CMemoryFunction.Reset target dst).2)

/-- The move constructor `CMemoryFunction::CMemoryFunction(CMemoryFunction&& rhs)`:
`m_code(nullptr)`, `m_size(0)`, then `*this = std::move(rhs)`. -/
def CMemoryFunction.moveConstruct (target : Target) (rhs : CMemoryFunction) :
    CMemoryFunction × CMemoryFunction × List HostCall :=
  CMemoryFunction.moveAssign target CMemoryFunction.empty rhs

/-- A call of one of the four public methods of `JITMemoryTracker`. -/
inductive TrackerCall
  | RegisterJITRegion (ptr size : Nat)
  | UnregisterJITRegion (ptr : Nat)
  | JITRegionWriteEnableExecuteDisable (ptr : Nat)
  | JITRegionWriteDisableExecuteEnable (ptr : Nat)
  deriving DecidableEq, Repr

/-- The tracker after one call, and the host calls it issued. -/
def applyCall (t : JITMemoryTracker) : TrackerCall → JITMemoryTracker × List HostCall
  | TrackerCall.RegisterJITRegion ptr size => (RegisterJITRegion t ptr size, [])
  | TrackerCall.UnregisterJITRegion ptr => (UnregisterJITRegion t ptr, [])
  | TrackerCall.JITRegionWriteEnableExecuteDisable ptr =>
    JITRegionWriteEnableExecuteDisable t ptr
  | TrackerCall.JITRegionWriteDisableExecuteEnable ptr =>
    JITRegionWriteDisableExecuteEnable t ptr

/-- The tracker after a sequence of calls, run in order. -/
def runCalls : List TrackerCall → JITMemoryTracker → JITMemoryTracker
  | [], t => t
  | call :: rest, t => runCalls rest (applyCall t call).1

/-- Whether every call of a sequence passes the test `guard` in the state it is made in. -/
def callsPass (guard : JITMemoryTracker → TrackerCall → Bool) :
    List TrackerCall → JITMemoryTracker → Bool
  | [], _ => true
  | call :: rest, t => guard t call && callsPass guard rest (applyCall t call).1

/-- Whether the half-open byte ranges `[start, start + size)` of two regions have no byte in
common. -/
def rangesDisjoint (a b : JITRegion) : Bool :=
  decide (a.start + a.size ≤ b.start ∨ b.start + b.size ≤ a.start ∨ a.size = 0 ∨ b.size = 0)

/-- A call is matched when it is not an end of write, or is an end of write at an address
that resolves to no region or to a region of depth at least 1. -/
def matchedCall (t : JITMemoryTracker) : TrackerCall → Bool
  | TrackerCall.JITRegionWriteDisableExecuteEnable ptr =>
    match FindRegion t.m_regions ptr with
    | some region => decide (0 < region.nesting_counter)
    | none => true
  | _ => true

/-- A call keeps ranges apart when it is not a registration, or registers a range that has
no byte in common with the range of any region registered at another address. -/
def separateCall (t : JITMemoryTracker) : TrackerCall → Bool
  | TrackerCall.RegisterJITRegion ptr size =>
    t.m_regions.all (fun pair => decide (pair.1 = ptr) || rangesDisjoint ⟨ptr, size, 0⟩ pair.2)
  | _ => true

/-- A call is fresh when it is not a registration, or registers an address that is not
currently registered with a range that has no byte in common with any live region. -/
def freshCall (t : JITMemoryTracker) : TrackerCall → Bool
  | TrackerCall.RegisterJITRegion ptr size =>
    t.m_regions.all (fun pair => decide (pair.1 ≠ ptr) && rangesDisjoint ⟨ptr, size, 0⟩ pair.2)
  | _ => true

/-- The host's change-protection primitive (`mprotect`), an external collaborator: the call
always succeeds and gives the bytes of `[addr, addr + size)` the protection `prot`; the
protection of a byte is kept per address. -/
def setProtection (pages : Nat → Prot) (addr size : Nat) (prot : Prot) : Nat → Prot :=
  fun x => if addr ≤ x ∧ x < addr + size then prot else pages x

/-- The page protections after a host call: `mprotect` changes them, the other calls of the
registry do not. -/
def applyHostCall (pages : Nat → Prot) : HostCall → Nat → Prot
  | HostCall.mprotect addr size prot => setProtection pages addr size prot
  | _ => pages

/-- The registry together with the protection of every byte. -/
structure World where
  tracker : JITMemoryTracker
  pages : Nat → Prot

/-- One registry call in a world: a registered range is read+execute from its registration
on (it comes from `mmap(..., PROT_READ | PROT_EXEC, ...)` in
`AllocateExecutableMemory_Legacy`), and the host calls issued by the registry are applied in
order. -/
def World.apply (w : World) (call : TrackerCall) : World :=
  match call with
  | TrackerCall.RegisterJITRegion ptr size =>
    ⟨(applyCall w.tracker call).1, setProtection w.pages ptr size PROT_RX⟩
  | _ =>
    ⟨(applyCall w.tracker call).1, (applyCall w.tracker call).2.foldl applyHostCall w.pages⟩

/-- The world after a sequence of calls, run in order. -/
def World.run : List TrackerCall → World → World
  | [], w => w
  | call :: rest, w => World.run rest (w.apply call)

/-! ## Theorems: JITMemoryTracker -/

theorem FindRegion_storeRegion (regs : List (Nat × JITRegion)) (ptr : Nat)
    (r v : JITRegion) (h : FindRegion regs ptr = some r)
    (hs : v.start = r.start) (hz : v.size = r.size) :
    FindRegion (storeRegion regs ptr v) ptr = some v := by
  induction regs with
  | nil => simp [FindRegion] at h
  | cons pair rest ih =>
    by_cases hc : pair.2.contains ptr = true
    · have hr : pair.2 = r := by simpa [FindRegion, hc] using h
      have hv : v.contains ptr = true := by
        have : r.contains ptr = true := hr ▸ hc
        simpa [JITRegion.contains, hs, hz] using this
      simp [storeRegion, FindRegion, hc, hv]
    · have h2 : FindRegion rest ptr = some r := by simpa [FindRegion, hc] using h
      simp [storeRegion, FindRegion, hc, ih h2]

theorem storeRegion_storeRegion (regs : List (Nat × JITRegion)) (ptr : Nat)
    (r v w : JITRegion) (h : FindRegion regs ptr = some r)
    (hs : v.start = r.start) (hz : v.size = r.size) :
    storeRegion (storeRegion regs ptr v) ptr w = storeRegion regs ptr w := by
  induction regs with
  | nil => simp [FindRegion] at h
  | cons pair rest ih =>
    by_cases hc : pair.2.contains ptr = true
    · have hr : pair.2 = r := by simpa [FindRegion, hc] using h
      have hv : v.contains ptr = true := by
        have : r.contains ptr = true := hr ▸ hc
        simpa [JITRegion.contains, hs, hz] using this
      simp [storeRegion, hc, hv]
    · have h2 : FindRegion rest ptr = some r := by simpa [FindRegion, hc] using h
      simp [storeRegion, hc, ih h2]

theorem storeRegion_self (regs : List (Nat × JITRegion)) (ptr : Nat)
    (r : JITRegion) (h : FindRegion regs ptr = some r) :
    storeRegion regs ptr r = regs := by
  induction regs with
  | nil => rfl
  | cons pair rest ih =>
    by_cases hc : pair.2.contains ptr = true
    · have hr : pair.2 = r := by simpa [FindRegion, hc] using h
      simp [storeRegion, hc, ← hr]
    · have h2 : FindRegion rest ptr = some r := by simpa [FindRegion, hc] using h
      simp [storeRegion, hc, ih h2]

theorem repeatCall_add (op : JITMemoryTracker → Nat → JITMemoryTracker × List HostCall)
    (ptr m k : Nat) (t : JITMemoryTracker) :
    repeatCall op ptr (m + k) t =
      ((repeatCall op ptr k (repeatCall op ptr m t).1).1,
        (repeatCall op ptr m t).2 ++ (repeatCall op ptr k (repeatCall op ptr m t).1).2) := by
  induction m generalizing t with
  | zero => simp [repeatCall]
  | succ m ih =>
    have e : m + 1 + k = (m + k) + 1 := by omega
    rw [e]
    simp [repeatCall, ih, List.append_assoc]

theorem begin_found (regs : List (Nat × JITRegion)) (ptr : Nat) (r : JITRegion)
    (h : FindRegion regs ptr = some r) :
    JITRegionWriteEnableExecuteDisable ⟨regs⟩ ptr =
      (⟨storeRegion regs ptr ⟨r.start, r.size, r.nesting_counter + 1⟩⟩,
        if r.nesting_counter = 0 then [HostCall.mprotect r.start r.size PROT_RW] else []) := by
  simp [JITRegionWriteEnableExecuteDisable, h]

theorem end_found (regs : List (Nat × JITRegion)) (ptr : Nat) (r : JITRegion)
    (h : FindRegion regs ptr = some r) :
    JITRegionWriteDisableExecuteEnable ⟨regs⟩ ptr =
      (⟨storeRegion regs ptr ⟨r.start, r.size, r.nesting_counter - 1⟩⟩,
        if r.nesting_counter - 1 = 0 then [HostCall.mprotect r.start r.size PROT_RX]
        else []) := by
  simp [JITRegionWriteDisableExecuteEnable, h]

/-- Nested begins on a region that is already writable (depth > 0) only count. -/
theorem repeat_begin_of_pos (ptr n : Nat) (regs : List (Nat × JITRegion)) (r : JITRegion)
    (h : FindRegion regs ptr = some r) (hpos : 0 < r.nesting_counter) :
    repeatCall JITRegionWriteEnableExecuteDisable ptr n ⟨regs⟩ =
      (⟨storeRegion regs ptr ⟨r.start, r.size, r.nesting_counter + n⟩⟩, []) := by
  induction n generalizing regs r with
  | zero =>
    have : (⟨r.start, r.size, r.nesting_counter + ((0 : Nat) : Int)⟩ : JITRegion) = r := by
      cases r; simp
    simp [repeatCall, this, storeRegion_self regs ptr r h]
  | succ n ih =>
    have hne : r.nesting_counter ≠ 0 := by omega
    have hf := FindRegion_storeRegion regs ptr r ⟨r.start, r.size, r.nesting_counter + 1⟩ h rfl rfl
    have hstep := ih (storeRegion regs ptr ⟨r.start, r.size, r.nesting_counter + 1⟩)
      ⟨r.start, r.size, r.nesting_counter + 1⟩ hf (by simp; omega)
    have hss := storeRegion_storeRegion regs ptr r ⟨r.start, r.size, r.nesting_counter + 1⟩
      ⟨r.start, r.size, r.nesting_counter + 1 + n⟩ h rfl rfl
    have hc : r.nesting_counter + 1 + (n : Int) = r.nesting_counter + ((n + 1 : Nat) : Int) := by
      push_cast; ring
    rw [hc] at hss
    simp only [repeatCall, begin_found regs ptr r h, hstep, hne, if_false, List.append_nil, hc]
    rw [hss]

/-- Ends that do not bring the depth down to 0 only count. -/
theorem repeat_end_of_lt (ptr n : Nat) (regs : List (Nat × JITRegion)) (r : JITRegion)
    (h : FindRegion regs ptr = some r) (hlt : (n : Int) < r.nesting_counter) :
    repeatCall JITRegionWriteDisableExecuteEnable ptr n ⟨regs⟩ =
      (⟨storeRegion regs ptr ⟨r.start, r.size, r.nesting_counter - n⟩⟩, []) := by
  induction n generalizing regs r with
  | zero =>
    have : (⟨r.start, r.size, r.nesting_counter - ((0 : Nat) : Int)⟩ : JITRegion) = r := by
      cases r; simp
    simp [repeatCall, this, storeRegion_self regs ptr r h]
  | succ n ih =>
    have hlt2 : ((n : Int) + 1) < r.nesting_counter := by push_cast at hlt; exact hlt
    have hne : r.nesting_counter - 1 ≠ 0 := by omega
    have hf := FindRegion_storeRegion regs ptr r ⟨r.start, r.size, r.nesting_counter - 1⟩ h rfl rfl
    have hstep := ih (storeRegion regs ptr ⟨r.start, r.size, r.nesting_counter - 1⟩)
      ⟨r.start, r.size, r.nesting_counter - 1⟩ hf (by simp; omega)
    have hss := storeRegion_storeRegion regs ptr r ⟨r.start, r.size, r.nesting_counter - 1⟩
      ⟨r.start, r.size, r.nesting_counter - 1 - n⟩ h rfl rfl
    have hc : r.nesting_counter - 1 - (n : Int) = r.nesting_counter - ((n + 1 : Nat) : Int) := by
      push_cast; ring
    rw [hc] at hss
    simp only [repeatCall, end_found regs ptr r h, hstep, hne, if_false, List.append_nil, hc]
    rw [hss]

theorem repeat_begin_from_zero (ptr m : Nat) (regs : List (Nat × JITRegion)) (r : JITRegion)
    (h : FindRegion regs ptr = some r) (h0 : r.nesting_counter = 0) :
    repeatCall JITRegionWriteEnableExecuteDisable ptr (m + 1) ⟨regs⟩ =
      (⟨storeRegion regs ptr ⟨r.start, r.size, 1 + m⟩⟩,
        [HostCall.mprotect r.start r.size PROT_RW]) := by
  have hf := FindRegion_storeRegion regs ptr r ⟨r.start, r.size, r.nesting_counter + 1⟩ h rfl rfl
  have hrest := repeat_begin_of_pos ptr m
    (storeRegion regs ptr ⟨r.start, r.size, r.nesting_counter + 1⟩)
    ⟨r.start, r.size, r.nesting_counter + 1⟩ hf (by simp [h0])
  have hss := storeRegion_storeRegion regs ptr r ⟨r.start, r.size, r.nesting_counter + 1⟩
    ⟨r.start, r.size, r.nesting_counter + 1 + m⟩ h rfl rfl
  simp only [h0, zero_add] at hrest hss
  simp only [repeatCall, begin_found regs ptr r h, h0, zero_add, hrest, hss, if_true,
    List.append_nil]

theorem repeat_end_to_zero (ptr m : Nat) (regs : List (Nat × JITRegion)) (r : JITRegion)
    (h : FindRegion regs ptr = some r) (hd : r.nesting_counter = 1 + m) :
    repeatCall JITRegionWriteDisableExecuteEnable ptr m ⟨regs⟩ =
      (⟨storeRegion regs ptr ⟨r.start, r.size, 1⟩⟩, []) ∧
    repeatCall JITRegionWriteDisableExecuteEnable ptr (m + 1) ⟨regs⟩ =
      (⟨storeRegion regs ptr ⟨r.start, r.size, 0⟩⟩,
        [HostCall.mprotect r.start r.size PROT_RX]) := by
  have hfirst := repeat_end_of_lt ptr m regs r h (by omega)
  have hc : r.nesting_counter - (m : Int) = 1 := by omega
  rw [hc] at hfirst
  have hf := FindRegion_storeRegion regs ptr r ⟨r.start, r.size, 1⟩ h rfl rfl
  have hss := storeRegion_storeRegion regs ptr r ⟨r.start, r.size, 1⟩
    ⟨r.start, r.size, 0⟩ h rfl rfl
  refine ⟨hfirst, ?_⟩
  rw [repeatCall_add, hfirst]
  simp only [repeatCall, end_found _ ptr _ hf, hss, List.append_nil, List.nil_append,
    sub_self, if_true]

/-- C1 (counterexample): the registry reached by registering the overlapping ranges
[4096, 12288) and [8192, 12288) and opening one write bracket at 4096 tracks the address 8192
inside the region (8192, 4096), whose depth is 0; yet two begins followed by two ends at 8192
issue no protection change at all, because `FindRegion` resolves 8192 to the first region,
whose depth is 1. -/
theorem nested_brackets_overlap_counterexample :
    ((8192, (⟨8192, 4096, 0⟩ : JITRegion)) ∈
        (JITRegionWriteEnableExecuteDisable
          (RegisterJITRegion (RegisterJITRegion ⟨[]⟩ 4096 8192) 8192 4096) 4096).1.m_regions) ∧
    (⟨8192, 4096, 0⟩ : JITRegion).contains 8192 = true ∧
    (repeatCall JITRegionWriteEnableExecuteDisable 8192 2
        (JITRegionWriteEnableExecuteDisable
          (RegisterJITRegion (RegisterJITRegion ⟨[]⟩ 4096 8192) 8192 4096) 4096).1).2 = [] ∧
    (repeatCall JITRegionWriteDisableExecuteEnable 8192 2
        (repeatCall JITRegionWriteEnableExecuteDisable 8192 2
          (JITRegionWriteEnableExecuteDisable
            (RegisterJITRegion (RegisterJITRegion ⟨[]⟩ 4096 8192) 8192 4096) 4096).1).1).2 = [] := by
  decide

/-- C1 (amended): when `FindRegion` resolves the address `A` to a region `R` of depth 0 (the
first tracked region in address order that contains `A`, the only one when ranges do not
overlap), then for every `n ≥ 1`, `n` begins at `A` followed by `n` ends at `A` issue exactly
one protection change to read+write, by the first begin, and exactly one to read+execute, by
the last end (the `n - 1` ends before it issue none), each over `(R.start, R.size)`; the
region is again at depth 0 and the whole registry is as it was. -/
theorem nested_write_brackets (t : JITMemoryTracker) (A : Nat) (R : JITRegion) (n : Nat)
    (hfind : FindRegion t.m_regions A = some R) (hdepth : R.nesting_counter = 0)
    (hn : 1 ≤ n) :
    (repeatCall JITRegionWriteEnableExecuteDisable A n t).2
        = [HostCall.mprotect R.start R.size PROT_RW] ∧
    (JITRegionWriteEnableExecuteDisable t A).2
        = [HostCall.mprotect R.start R.size PROT_RW] ∧
    (repeatCall JITRegionWriteDisableExecuteEnable A n
        (repeatCall JITRegionWriteEnableExecuteDisable A n t).1).2
        = [HostCall.mprotect R.start R.size PROT_RX] ∧
    (repeatCall JITRegionWriteDisableExecuteEnable A (n - 1)
        (repeatCall JITRegionWriteEnableExecuteDisable A n t).1).2 = [] ∧
    FindRegion (repeatCall JITRegionWriteDisableExecuteEnable A n
        (repeatCall JITRegionWriteEnableExecuteDisable A n t).1).1.m_regions A = some R ∧
    (repeatCall JITRegionWriteDisableExecuteEnable A n
        (repeatCall JITRegionWriteEnableExecuteDisable A n t).1).1 = t := by
  obtain ⟨m, rfl⟩ : ∃ m, n = m + 1 := ⟨n - 1, by omega⟩
  obtain ⟨regs⟩ := t
  simp only at hfind
  have hb := repeat_begin_from_zero A m regs R hfind hdepth
  have hfb := FindRegion_storeRegion regs A R ⟨R.start, R.size, 1 + m⟩ hfind rfl rfl
  have he := repeat_end_to_zero A m (storeRegion regs A ⟨R.start, R.size, 1 + m⟩)
    ⟨R.start, R.size, 1 + m⟩ hfb rfl
  have hss1 := storeRegion_storeRegion regs A R ⟨R.start, R.size, 1 + m⟩
    ⟨R.start, R.size, 1⟩ hfind rfl rfl
  have hss0 := storeRegion_storeRegion regs A R ⟨R.start, R.size, 1 + m⟩
    ⟨R.start, R.size, 0⟩ hfind rfl rfl
  have hR : (⟨R.start, R.size, 0⟩ : JITRegion) = R := by
    cases R; simp only at hdepth; simp [hdepth]
  have hback : storeRegion regs A ⟨R.start, R.size, 0⟩ = regs := by
    rw [hR]; exact storeRegion_self regs A R hfind
  simp only [hss1, hss0, hback] at he
  have hfirst : (JITRegionWriteEnableExecuteDisable ⟨regs⟩ A).2
      = [HostCall.mprotect R.start R.size PROT_RW] := by
    simp [begin_found regs A R hfind, hdepth]
  refine ⟨by rw [hb], hfirst, by rw [hb, he.2], ?_, by rw [hb, he.2]; exact hfind,
    by rw [hb, he.2]⟩
  rw [hb, Nat.add_sub_cancel, he.1]

/-- C1 (amended), instance: one region (4096, 4096) at depth 0, address 5000, three nested
brackets. -/
theorem nested_write_brackets_witness :
    (repeatCall JITRegionWriteEnableExecuteDisable 5000 3 ⟨[(4096, ⟨4096, 4096, 0⟩)]⟩).2
        = [HostCall.mprotect 4096 4096 PROT_RW] ∧
    (repeatCall JITRegionWriteDisableExecuteEnable 5000 3
        (repeatCall JITRegionWriteEnableExecuteDisable 5000 3
          ⟨[(4096, ⟨4096, 4096, 0⟩)]⟩).1).2
        = [HostCall.mprotect 4096 4096 PROT_RX] :=
  have h := nested_write_brackets ⟨[(4096, ⟨4096, 4096, 0⟩)]⟩ 5000 ⟨4096, 4096, 0⟩ 3
    (by decide) (by decide) (by decide)
  ⟨h.1, h.2.2.1⟩

theorem contains_iff (r : JITRegion) (A : Nat) :
    r.contains A = true ↔ (r.start ≤ A ∧ A < r.start + r.size) := by
  simp [JITRegion.contains]

theorem FindRegion_eq_none_iff (regs : List (Nat × JITRegion)) (A : Nat) :
    FindRegion regs A = none ↔
      ∀ pair ∈ regs, ¬ (pair.2.start ≤ A ∧ A < pair.2.start + pair.2.size) := by
  induction regs with
  | nil => simp [FindRegion]
  | cons pair rest ih =>
    by_cases hc : pair.2.contains A = true
    · have hin := (contains_iff pair.2 A).1 hc
      simp only [FindRegion, hc, if_true, List.mem_cons, forall_eq_or_imp]
      constructor
      · intro h; cases h
      · intro h; exact absurd hin h.1
    · have hout : ¬ (pair.2.start ≤ A ∧ A < pair.2.start + pair.2.size) :=
        fun h => hc ((contains_iff pair.2 A).2 h)
      have hc2 : pair.2.contains A = false := by simpa using hc
      simp only [FindRegion, hc2, Bool.false_eq_true, if_false, List.mem_cons,
        forall_eq_or_imp, ih]
      constructor
      · intro h; exact ⟨hout, h⟩
      · intro h; exact h.2

theorem FindRegion_some_mem (regs : List (Nat × JITRegion)) (A : Nat) (r : JITRegion)
    (h : FindRegion regs A = some r) :
    ∃ pair ∈ regs, pair.2 = r ∧ (r.start ≤ A ∧ A < r.start + r.size) := by
  induction regs with
  | nil => simp [FindRegion] at h
  | cons pair rest ih =>
    by_cases hc : pair.2.contains A = true
    · have hr : pair.2 = r := by simpa [FindRegion, hc] using h
      exact ⟨pair, List.mem_cons_self _ _, hr, hr ▸ (contains_iff pair.2 A).1 hc⟩
    · have h2 : FindRegion rest A = some r := by simpa [FindRegion, hc] using h
      obtain ⟨q, hq, hqr, hin⟩ := ih h2
      exact ⟨q, List.mem_cons_of_mem _ hq, hqr, hin⟩

/-- C2: for every registry and address `A`, `FindRegion(A)` is null when `A` lies in no
registered range `[start, start + size)` (and only then), and when `A` lies in the range of
exactly one entry it returns that entry's region. -/
theorem FindRegion_owner (regs : List (Nat × JITRegion)) (A : Nat) :
    (FindRegion regs A = none ↔
      ∀ pair ∈ regs, ¬ (pair.2.start ≤ A ∧ A < pair.2.start + pair.2.size)) ∧
    (∀ pair ∈ regs, (pair.2.start ≤ A ∧ A < pair.2.start + pair.2.size) →
      (∀ other ∈ regs, (other.2.start ≤ A ∧ A < other.2.start + other.2.size) →
        other = pair) →
      FindRegion regs A = some pair.2) := by
  refine ⟨FindRegion_eq_none_iff regs A, ?_⟩
  intro pair hmem hin huniq
  cases hfind : FindRegion regs A with
  | none => exact absurd hin ((FindRegion_eq_none_iff regs A).1 hfind pair hmem)
  | some r =>
    obtain ⟨q, hq, hqr, hqin⟩ := FindRegion_some_mem regs A r hfind
    have : q = pair := huniq q hq (hqr ▸ hqin)
    rw [← hqr, this]

/-- C2, instance: two disjoint regions; 9000 is owned by the second, 100 by none. -/
theorem FindRegion_owner_witness :
    FindRegion [(4096, ⟨4096, 4096, 0⟩), (8192, ⟨8192, 4096, 2⟩)] 9000
        = some ⟨8192, 4096, 2⟩ ∧
    FindRegion [(4096, ⟨4096, 4096, 0⟩), (8192, ⟨8192, 4096, 2⟩)] 100 = none :=
  ⟨(FindRegion_owner [(4096, ⟨4096, 4096, 0⟩), (8192, ⟨8192, 4096, 2⟩)] 9000).2
      (8192, ⟨8192, 4096, 2⟩) (by decide) (by decide) (by decide),
    (FindRegion_owner [(4096, ⟨4096, 4096, 0⟩), (8192, ⟨8192, 4096, 2⟩)] 100).1.2
      (by decide)⟩

/-- C10: when the address `A` lies in no registered region, both bracket calls leave the
registry exactly as it was and issue no host call. -/
theorem untracked_address_noop (t : JITMemoryTracker) (A : Nat)
    (h : ∀ pair ∈ t.m_regions, ¬ (pair.2.start ≤ A ∧ A < pair.2.start + pair.2.size)) :
    JITRegionWriteEnableExecuteDisable t A = (t, []) ∧
    JITRegionWriteDisableExecuteEnable t A = (t, []) := by
  have hnone := (FindRegion_eq_none_iff t.m_regions A).2 h
  simp [JITRegionWriteEnableExecuteDisable, JITRegionWriteDisableExecuteEnable, hnone]

/-- C10, instance: one region (4096, 4096) at depth 1 and the untracked address 8192. -/
theorem untracked_address_noop_witness :
    JITRegionWriteEnableExecuteDisable ⟨[(4096, ⟨4096, 4096, 1⟩)]⟩ 8192
        = (⟨[(4096, ⟨4096, 4096, 1⟩)]⟩, []) ∧
    JITRegionWriteDisableExecuteEnable ⟨[(4096, ⟨4096, 4096, 1⟩)]⟩ 8192
        = (⟨[(4096, ⟨4096, 4096, 1⟩)]⟩, []) :=
  untracked_address_noop ⟨[(4096, ⟨4096, 4096, 1⟩)]⟩ 8192 (by decide)

/-! ## Theorems: MemoryUtil (iOS) -/

theorem mem_mapAssign (key : Nat) (value : JITRegion) (m : List (Nat × JITRegion)) :
    (key, value) ∈ mapAssign key value m := by
  induction m with
  | nil => simp [mapAssign]
  | cons pair rest ih =>
    by_cases h1 : key < pair.1
    · simp [mapAssign, h1]
    · by_cases h2 : key = pair.1
      · simp [mapAssign, h1, h2]
      · simp only [mapAssign, h1, h2, if_false]
        exact List.mem_cons_of_mem _ ih

/-- C3 (counterexample): the selector is `LuckTXM` (its initial value), arena setup fails
because `vm_remap` fails, so `g_rx_region` stays null; `mmap` would succeed (it returns
4294967296); yet `AllocateExecutableMemory(4096)` returns null and registers nothing. -/
theorem arena_unavailable_no_fallback_counterexample :
    (AllocateExecutableMemoryRegion
        ⟨fun _ _ => 4294967296, fun _ _ => none, fun _ _ _ => true, fun _ _ => 1,
          fun _ => 0, 16384⟩ MemoryUtilState.initial).1.g_jit_type = JitType.LuckTXM ∧
    (AllocateExecutableMemoryRegion
        ⟨fun _ _ => 4294967296, fun _ _ => none, fun _ _ _ => true, fun _ _ => 1,
          fun _ => 0, 16384⟩ MemoryUtilState.initial).1.g_rx_region = 0 ∧
    (AllocateExecutableMemory
        ⟨fun _ _ => 4294967296, fun _ _ => none, fun _ _ _ => true, fun _ _ => 1,
          fun _ => 0, 16384⟩
        (AllocateExecutableMemoryRegion
          ⟨fun _ _ => 4294967296, fun _ _ => none, fun _ _ _ => true, fun _ _ => 1,
            fun _ => 0, 16384⟩ MemoryUtilState.initial).1 4096).2 = 0 ∧
    (AllocateExecutableMemory
        ⟨fun _ _ => 4294967296, fun _ _ => none, fun _ _ _ => true, fun _ _ => 1,
          fun _ => 0, 16384⟩
        (AllocateExecutableMemoryRegion
          ⟨fun _ _ => 4294967296, fun _ _ => none, fun _ _ _ => true, fun _ _ => 1,
            fun _ => 0, 16384⟩ MemoryUtilState.initial).1 4096).1.g_jit_memory_tracker
      = ⟨[]⟩ := by
  decide

/-- C3 (amended): with the selector on `LuckTXM` and `g_rx_region` null there is no fallback:
`AllocateExecutableMemory(size)` returns null and changes nothing, whatever the host would
answer. The toggle strategy allocates only under the selector `Legacy`: there, when `mmap`
succeeds, the call returns the mapped (non-null) address, registered with the requested size
and depth 0. -/
theorem allocate_without_arena (host : Host) (st : MemoryUtilState) (size : Nat) :
    (st.g_jit_type = JitType.LuckTXM → st.g_rx_region = 0 →
      AllocateExecutableMemory host st size = (st, 0)) ∧
    (st.g_jit_type = JitType.Legacy → host.mmap size PROT_RX ≠ 0 →
      host.mmap size PROT_RX ≠ MAP_FAILED →
      (AllocateExecutableMemory host st size).2 = host.mmap size PROT_RX ∧
      (AllocateExecutableMemory host st size).2 ≠ 0 ∧
      ((AllocateExecutableMemory host st size).2,
          (⟨(AllocateExecutableMemory host st size).2, size, 0⟩ : JITRegion)) ∈
        (AllocateExecutableMemory host st size).1.g_jit_memory_tracker.m_regions) := by
  constructor
  · intro ht hnull
    simp [AllocateExecutableMemory, ht, AllocateExecutableMemory_LuckTXM, hnull]
  · intro ht h0 hf
    have hres : AllocateExecutableMemory host st size =
        ({ st with g_jit_memory_tracker :=
            RegisterJITRegion st.g_jit_memory_tracker (host.mmap size PROT_RX) size },
          host.mmap size PROT_RX) := by
      simp [AllocateExecutableMemory, ht, AllocateExecutableMemory_Legacy, h0, hf]
    rw [hres]
    exact ⟨rfl, h0, mem_mapAssign _ _ _⟩

/-- C3 (amended), instance: the initial globals (selector `LuckTXM`, no arena) give null; the
same globals under the selector `Legacy` give the address 4294967296 returned by `mmap`,
registered with size 4096 and depth 0. -/
theorem allocate_without_arena_witness :
    AllocateExecutableMemory
        ⟨fun _ _ => 4294967296, fun _ _ => none, fun _ _ _ => true, fun _ _ => 1,
          fun _ => 0, 16384⟩ MemoryUtilState.initial 4096 = (MemoryUtilState.initial, 0) ∧
    (AllocateExecutableMemory
        ⟨fun _ _ => 4294967296, fun _ _ => none, fun _ _ _ => true, fun _ _ => 1,
          fun _ => 0, 16384⟩ (SetJitType MemoryUtilState.initial JitType.Legacy) 4096).2
      = 4294967296 :=
  ⟨(allocate_without_arena
      ⟨fun _ _ => 4294967296, fun _ _ => none, fun _ _ _ => true, fun _ _ => 1,
        fun _ => 0, 16384⟩ MemoryUtilState.initial 4096).1 rfl rfl,
    ((allocate_without_arena
      ⟨fun _ _ => 4294967296, fun _ _ => none, fun _ _ _ => true, fun _ _ => 1,
        fun _ => 0, 16384⟩ (SetJitType MemoryUtilState.initial JitType.Legacy) 4096).2
      rfl (by decide) (by decide)).1⟩

theorem ptrAdd_ptrdiff (rw rx : Nat) (h1 : rw < WORD) :
    ptrAdd rx (ptrdiff rw rx) = rw := by
  simp only [WORD] at h1
  simp only [ptrAdd, ptrdiff]
  omega

/-- The writable alias is what `FreeWritableRegion_LuckNoTXM` releases when the remap and the
protection change succeeded. -/
theorem FreeWritableRegion_after_success (host : Host) (rx size rw : Nat)
    (hremap : host.vm_remap rx size = some rw) (hprot : host.mprotect rw size PROT_RW = true)
    (h1 : rw < WORD) :
    FreeWritableRegion_LuckNoTXM rx size
        (AllocateWritableRegionAndGetDiff_LuckNoTXM host rx size).1
      = [HostCall.vm_deallocate rw size] := by
  simp [FreeWritableRegion_LuckNoTXM, AllocateWritableRegionAndGetDiff_LuckNoTXM, hremap,
    hprot, ptrAdd_ptrdiff rw rx h1]

/-- C6 (the code at the failing input): for the executable mapping at 4294967296 of 16384
bytes, when `vm_remap` fails, and also when it succeeds (alias at 8589934592) but `mprotect`
fails, `AllocateWritableRegionAndGetDiff_LuckNoTXM` returns the offset 0 and
`FreeWritableRegion_LuckNoTXM` called with that offset deallocates the executable mapping
itself, `vm_deallocate(4294967296, 16384)`. -/
theorem FreeWritableRegion_after_failure_unmaps_rx :
    (AllocateWritableRegionAndGetDiff_LuckNoTXM
        ⟨fun _ _ => 4294967296, fun _ _ => none, fun _ _ _ => true, fun _ _ => 1,
          fun _ => 0, 16384⟩ 4294967296 16384).1 = 0 ∧
    (AllocateWritableRegionAndGetDiff_LuckNoTXM
        ⟨fun _ _ => 4294967296, fun _ _ => some 8589934592, fun _ _ _ => false, fun _ _ => 1,
          fun _ => 0, 16384⟩ 4294967296 16384)
      = (0, [HostCall.mprotect 8589934592 16384 PROT_RW,
          HostCall.vm_deallocate 8589934592 16384]) ∧
    FreeWritableRegion_LuckNoTXM 4294967296 16384 0
      = [HostCall.vm_deallocate 4294967296 16384] := by
  decide

theorem land_not_mask (x k : Nat) (hx : x < 2 ^ 64) (hk : k ≤ 64) :
    x &&& (2 ^ 64 - 1 - (2 ^ k - 1)) = x / 2 ^ k * 2 ^ k := by
  have hr : x / 2 ^ k * 2 ^ k = (x >>> k) <<< k := by
    rw [Nat.shiftLeft_eq, Nat.shiftRight_eq_div_pow]
  rw [hr]
  apply Nat.eq_of_testBit_eq
  intro i
  have hm : 2 ^ 64 - 1 - (2 ^ k - 1) = 2 ^ 64 - ((2 ^ k - 1) + 1) := by omega
  have hlt : 2 ^ k - 1 < 2 ^ 64 := by
    have : 2 ^ k ≤ 2 ^ 64 := Nat.pow_le_pow_right (by norm_num) hk
    omega
  rw [Nat.testBit_land, hm, Nat.testBit_two_pow_sub_succ hlt, Nat.testBit_two_pow_sub_one,
    Nat.testBit_shiftLeft, Nat.testBit_shiftRight]
  by_cases h1 : i < k
  · simp [h1, Nat.not_le.2 h1]
  · have h2 : k ≤ i := Nat.le_of_not_lt h1
    have h4 : k + (i - k) = i := by omega
    by_cases h3 : i < 64
    · simp [h1, h2, h3, h4]
    · have : x.testBit i = false := by
        apply Nat.testBit_lt_two_pow
        calc x < 2 ^ 64 := hx
          _ ≤ 2 ^ i := Nat.pow_le_pow_right (by norm_num) (by omega)
      simp [h1, h2, h3, h4, this]

/-- When nothing wraps, the mask computation of `alignedOf` rounds `raw + sizeof(void*)` up
to the next multiple of the page size. -/
theorem alignedOf_eq (raw k : Nat) (h : raw + SIZEOF_PTR + 2 ^ k - 1 < WORD) :
    alignedOf raw (2 ^ k) = (raw + SIZEOF_PTR + 2 ^ k - 1) / 2 ^ k * 2 ^ k := by
  have hW : WORD = 2 ^ 64 := by norm_num [WORD]
  have hp : 0 < 2 ^ k := Nat.two_pow_pos k
  have hpW : 2 ^ k < 2 ^ 64 := by
    rw [← hW]; simp only [SIZEOF_PTR] at h; omega
  have hk : k < 64 := (Nat.pow_lt_pow_iff_right (by norm_num)).1 hpW
  have e1 : sub64 (add64 (add64 raw SIZEOF_PTR) (2 ^ k)) 1 = raw + SIZEOF_PTR + 2 ^ k - 1 := by
    generalize 2 ^ k = P at *
    simp only [add64, sub64, WORD, SIZEOF_PTR] at *
    omega
  have e2 : not64 (sub64 (2 ^ k) 1) = 2 ^ 64 - 1 - (2 ^ k - 1) := by
    rw [← hW]
    generalize 2 ^ k = P at *
    simp only [not64, sub64, WORD, SIZEOF_PTR] at *
    omega
  rw [alignedOf, e1, e2]
  exact land_not_mask _ k (hW ▸ h) (Nat.le_of_lt hk)

theorem alignedOf_lt (raw pagesize : Nat) : alignedOf raw pagesize < WORD := by
  have h1 : alignedOf raw pagesize ≤ sub64 (add64 (add64 raw SIZEOF_PTR) pagesize) 1 :=
    Nat.and_le_left
  have h2 : sub64 (add64 (add64 raw SIZEOF_PTR) pagesize) 1 < WORD :=
    Nat.mod_lt _ (by norm_num [WORD])
  omega

theorem ptrAdd_neg_cancel (a : Nat) (d : Int) (h : a < WORD) :
    ptrAdd (ptrAdd a (-d)) d = a := by
  simp only [WORD] at h
  simp only [ptrAdd]
  omega

theorem arena_arith (rx raw rw size P a : Nat) (d : Int)
    (hmirror : (rw : Int) = rx + d) (hP : 0 < P) (hlow : rw ≤ raw)
    (hhigh : raw + size + P - 1 + 8 ≤ rw + 536870912)
    (hrw : rw + 536870912 < 18446744073709551616)
    (hrx : rx + 536870912 < 18446744073709551616)
    (hle : a ≤ raw + 8 + P - 1) (hgt : raw + 8 + P - 1 < a + P) :
    ((ptrAdd a (-d) : Nat) : Int) + d = a ∧ (raw : Int) ≤ (a : Int) - 8 ∧
    (a : Int) + size ≤ (raw : Int) + size + P - 1 + 8 ∧
    rx ≤ ptrAdd a (-d) ∧ ptrAdd a (-d) + size ≤ rx + 536870912 := by
  simp only [ptrAdd]
  omega

theorem AllocateExecutableMemory_LuckTXM_eq (host : Host) (st : MemoryUtilState)
    (size raw : Nat) (hsetup : st.g_rx_region ≠ 0)
    (hraw : host.lwmem_malloc (requestOf size host.pagesize) = raw) (hnonnull : raw ≠ 0) :
    AllocateExecutableMemory_LuckTXM host st size =
      ({ st with words :=
          storeWord st.words (sub64 (alignedOf raw host.pagesize) SIZEOF_PTR) raw },
        ptrAdd (alignedOf raw host.pagesize) (- st.g_rw_region_diff)) := by
  simp [AllocateExecutableMemory_LuckTXM, hsetup, hraw, hnonnull]

/-- C7: with the arena set up (`g_rx_region` non-null), the writable mirror at
`rw = g_rx_region + g_rw_region_diff`, a page size `2 ^ k`, the sub-allocator returning the
block `[raw, raw + size + pagesize - 1 + sizeof(void*))` inside the mirror
`[rw, rw + 512 MiB)` and no address overflow, the address `r` returned by
`AllocateExecutableMemory_LuckTXM(size)` is such that `r + diff` is a multiple of the page
size, the header slot `[r + diff - sizeof(void*), r + diff)` and the block
`[r + diff, r + diff + size)` lie inside the sub-allocator's block, and
`g_rx_region ≤ r`, `r + size ≤ g_rx_region + 512 MiB`. -/
theorem arena_allocate_in_range (host : Host) (st : MemoryUtilState) (size k raw rw : Nat)
    (hsetup : st.g_rx_region ≠ 0)
    (hmirror : (rw : Int) = st.g_rx_region + st.g_rw_region_diff)
    (hpage : host.pagesize = 2 ^ k)
    (hraw : host.lwmem_malloc (requestOf size host.pagesize) = raw)
    (hnonnull : raw ≠ 0)
    (hlow : rw ≤ raw)
    (hhigh : raw + size + host.pagesize - 1 + SIZEOF_PTR ≤ rw + EXECUTABLE_REGION_SIZE)
    (hrw : rw + EXECUTABLE_REGION_SIZE < WORD)
    (hrx : st.g_rx_region + EXECUTABLE_REGION_SIZE < WORD) :
    ((host.pagesize : Int) ∣
      ((AllocateExecutableMemory_LuckTXM host st size).2 : Int) + st.g_rw_region_diff) ∧
    ((raw : Int) ≤
      ((AllocateExecutableMemory_LuckTXM host st size).2 : Int) + st.g_rw_region_diff
        - SIZEOF_PTR) ∧
    (((AllocateExecutableMemory_LuckTXM host st size).2 : Int) + st.g_rw_region_diff + size
      ≤ (raw : Int) + size + host.pagesize - 1 + SIZEOF_PTR) ∧
    st.g_rx_region ≤ (AllocateExecutableMemory_LuckTXM host st size).2 ∧
    (AllocateExecutableMemory_LuckTXM host st size).2 + size
      ≤ st.g_rx_region + EXECUTABLE_REGION_SIZE := by
  rw [AllocateExecutableMemory_LuckTXM_eq host st size raw hsetup hraw hnonnull]
  have hp : 0 < 2 ^ k := Nat.two_pow_pos k
  rw [hpage] at hhigh ⊢
  simp only [SIZEOF_PTR, EXECUTABLE_REGION_SIZE, WORD] at hhigh hrw hrx ⊢
  have hnowrap : raw + SIZEOF_PTR + 2 ^ k - 1 < WORD := by
    simp only [SIZEOF_PTR, WORD]
    generalize 2 ^ k = P at hhigh hp ⊢
    omega
  rw [alignedOf_eq raw k hnowrap]
  simp only [SIZEOF_PTR]
  have hle : (raw + 8 + 2 ^ k - 1) / 2 ^ k * 2 ^ k ≤ raw + 8 + 2 ^ k - 1 :=
    Nat.div_mul_le_self _ _
  have hgt : raw + 8 + 2 ^ k - 1 < (raw + 8 + 2 ^ k - 1) / 2 ^ k * 2 ^ k + 2 ^ k :=
    Nat.lt_div_mul_add hp
  have hdvd : 2 ^ k ∣ (raw + 8 + 2 ^ k - 1) / 2 ^ k * 2 ^ k := Nat.dvd_mul_left _ _
  obtain ⟨h1, h2, h3, h4, h5⟩ := arena_arith st.g_rx_region raw rw size (2 ^ k)
    ((raw + 8 + 2 ^ k - 1) / 2 ^ k * 2 ^ k) st.g_rw_region_diff hmirror hp hlow hhigh hrw
    hrx hle hgt
  refine ⟨?_, ?_, ?_, h4, h5⟩
  · rw [h1]
    exact Int.natCast_dvd_natCast.2 hdvd
  · rw [h1]
    exact h2
  · rw [h1]
    exact h3

/-- C7, instance: arena at 4294967296, mirror at 5368709120 (offset 1073741824), 16 KiB pages,
a block at 5368709144 for a request of 100 bytes. -/
theorem arena_allocate_in_range_witness :
    4294967296 ≤ (AllocateExecutableMemory_LuckTXM
        ⟨fun _ _ => 4294967296, fun _ _ => some 5368709120, fun _ _ _ => true, fun _ _ => 1,
          fun _ => 5368709144, 16384⟩
        ⟨JitType.LuckTXM, 4294967296, 1073741824, ⟨[]⟩, fun _ => 0⟩ 100).2 ∧
    (AllocateExecutableMemory_LuckTXM
        ⟨fun _ _ => 4294967296, fun _ _ => some 5368709120, fun _ _ _ => true, fun _ _ => 1,
          fun _ => 5368709144, 16384⟩
        ⟨JitType.LuckTXM, 4294967296, 1073741824, ⟨[]⟩, fun _ => 0⟩ 100).2 + 100
      ≤ 4294967296 + 536870912 :=
  have h := arena_allocate_in_range
    ⟨fun _ _ => 4294967296, fun _ _ => some 5368709120, fun _ _ _ => true, fun _ _ => 1,
      fun _ => 5368709144, 16384⟩
    ⟨JitType.LuckTXM, 4294967296, 1073741824, ⟨[]⟩, fun _ => 0⟩ 100 14 5368709144 5368709120
    (by decide) (by decide) (by decide) rfl (by decide) (by decide) (by decide) (by decide)
    (by decide)
  ⟨h.2.2.2.1, h.2.2.2.2⟩

/-- C8: when `AllocateExecutableMemory_LuckTXM(size)` obtained the raw pointer `q` from the
sub-allocator and returned the (non-null) executable address `r`, then
`FreeExecutableMemory_LuckTXM(r)`, run in any later state with the same arena offset and the
same word in the header slot, passes exactly `q` to `lwmem_free`; and
`FreeExecutableMemory_LuckTXM(nullptr)` frees nothing. -/
theorem arena_free_returns_raw (host : Host) (st st2 : MemoryUtilState) (size q : Nat)
    (hsetup : st.g_rx_region ≠ 0)
    (hq : host.lwmem_malloc (requestOf size host.pagesize) = q) (hq0 : q ≠ 0)
    (hr : (AllocateExecutableMemory_LuckTXM host st size).2 ≠ 0)
    (hdiff : st2.g_rw_region_diff
      = (AllocateExecutableMemory_LuckTXM host st size).1.g_rw_region_diff)
    (hslot : st2.words (sub64 (ptrAdd (AllocateExecutableMemory_LuckTXM host st size).2
        st2.g_rw_region_diff) SIZEOF_PTR)
      = (AllocateExecutableMemory_LuckTXM host st size).1.words
          (sub64 (ptrAdd (AllocateExecutableMemory_LuckTXM host st size).2
            st2.g_rw_region_diff) SIZEOF_PTR)) :
    FreeExecutableMemory_LuckTXM st2 (AllocateExecutableMemory_LuckTXM host st size).2
      = [HostCall.lwmem_free q] ∧
    FreeExecutableMemory_LuckTXM st2 0 = [] := by
  rw [AllocateExecutableMemory_LuckTXM_eq host st size q hsetup hq hq0] at hr hdiff hslot ⊢
  simp only at hr hdiff hslot ⊢
  have hback : ptrAdd (ptrAdd (alignedOf q host.pagesize) (- st.g_rw_region_diff))
      st.g_rw_region_diff = alignedOf q host.pagesize :=
    ptrAdd_neg_cancel _ _ (alignedOf_lt q host.pagesize)
  rw [hdiff, hback] at hslot
  constructor
  · simp only [FreeExecutableMemory_LuckTXM, hr, if_false, hdiff, hback, hslot, storeWord,
      if_true]
  · simp [FreeExecutableMemory_LuckTXM]

/-- C8, instance: the allocation of the instance of C7, freed in the state it left. -/
theorem arena_free_returns_raw_witness :
    FreeExecutableMemory_LuckTXM
      (AllocateExecutableMemory_LuckTXM
        ⟨fun _ _ => 4294967296, fun _ _ => some 5368709120, fun _ _ _ => true, fun _ _ => 1,
          fun _ => 5368709144, 16384⟩
        ⟨JitType.LuckTXM, 4294967296, 1073741824, ⟨[]⟩, fun _ => 0⟩ 100).1
      (AllocateExecutableMemory_LuckTXM
        ⟨fun _ _ => 4294967296, fun _ _ => some 5368709120, fun _ _ _ => true, fun _ _ => 1,
          fun _ => 5368709144, 16384⟩
        ⟨JitType.LuckTXM, 4294967296, 1073741824, ⟨[]⟩, fun _ => 0⟩ 100).2
      = [HostCall.lwmem_free 5368709144] :=
  (arena_free_returns_raw
    ⟨fun _ _ => 4294967296, fun _ _ => some 5368709120, fun _ _ _ => true, fun _ _ => 1,
      fun _ => 5368709144, 16384⟩
    ⟨JitType.LuckTXM, 4294967296, 1073741824, ⟨[]⟩, fun _ => 0⟩
    (AllocateExecutableMemory_LuckTXM
      ⟨fun _ _ => 4294967296, fun _ _ => some 5368709120, fun _ _ _ => true, fun _ _ => 1,
        fun _ => 5368709144, 16384⟩
      ⟨JitType.LuckTXM, 4294967296, 1073741824, ⟨[]⟩, fun _ => 0⟩ 100).1
    100 5368709144 (by decide) rfl (by decide) (by decide) rfl rfl).1

/-! ## Theorems: CMemoryFunction -/

theorem Reset_cleared (target : Target) (f : CMemoryFunction) :
    (CMemoryFunction.Reset target f).1.m_code = 0 ∧
    (CMemoryFunction.Reset target f).1.m_size = 0 := by
  unfold CMemoryFunction.Reset
  by_cases h0 : f.m_code = 0
  · simp [h0]
  · by_cases h1 : target = Target.iphone ∧ f.m_ios26TxmMode = true
    · simp [h0, h1]
    · cases target <;> simp_all

/-- C9: for every pair of (distinct) handles `dst` and `src`, on every platform, after the
move assignment `dst = std::move(src)`, and likewise after move construction from `src`, the
destination's `GetCode()` and `GetSize()` are the values `src` had, and the source is empty:
`IsEmpty()` is true and `GetSize()` is 0. -/
theorem move_transfers_and_empties (target : Target) (dst src : CMemoryFunction) :
    ((CMemoryFunction.moveAssign target dst src).1.GetCode = src.GetCode ∧
      (CMemoryFunction.moveAssign target dst src).1.GetSize = src.GetSize ∧
      (CMemoryFunction.moveAssign target dst src).2.1.IsEmpty = true ∧
      (CMemoryFunction.moveAssign target dst src).2.1.GetSize = 0) ∧
    ((CMemoryFunction.moveConstruct target src).1.GetCode = src.GetCode ∧
      (CMemoryFunction.moveConstruct target src).1.GetSize = src.GetSize ∧
      (CMemoryFunction.moveConstruct target src).2.1.IsEmpty = true ∧
      (CMemoryFunction.moveConstruct target src).2.1.GetSize = 0) := by
  have h1 := Reset_cleared target dst
  have h2 := Reset_cleared target CMemoryFunction.empty
  simp [CMemoryFunction.moveConstruct, CMemoryFunction.moveAssign, CMemoryFunction.GetCode,
    CMemoryFunction.GetSize, CMemoryFunction.IsEmpty, h1.1, h1.2, h2.1, h2.2]

/-- C4 (counterexample): on the generic mmap backend, with `mmap` returning `MAP_FAILED`.
For size 0 and assertions compiled out the constructor yields a handle whose `m_code` is
`MAP_FAILED`, for which `IsEmpty()` is false. For size 4096 the copy into `MAP_FAILED`
faults, and with assertions enabled the constructor aborts: no handle is built, empty or
not. -/
theorem failed_mmap_not_empty_counterexample :
    (CMemoryFunction.fromCode Target.other true
        ⟨none, false, 4096, fun _ => 0, fun _ _ => none, fun _ _ _ => true, fun _ => none,
          fun _ => MAP_FAILED, fun _ => 0, fun _ _ => true, fun _ _ => 0, fun _ => 0⟩ 65536 0
      = some (⟨MAP_FAILED, 0, false, 0, 0, 0⟩, [])) ∧
    (⟨MAP_FAILED, 0, false, 0, 0, 0⟩ : CMemoryFunction).IsEmpty = false ∧
    (CMemoryFunction.fromCode Target.other true
        ⟨none, false, 4096, fun _ => 0, fun _ _ => none, fun _ _ _ => true, fun _ => none,
          fun _ => MAP_FAILED, fun _ => 0, fun _ _ => true, fun _ _ => 0, fun _ => 0⟩ 65536
        4096
      = none) ∧
    (CMemoryFunction.fromCode Target.other false
        ⟨none, false, 4096, fun _ => 0, fun _ _ => none, fun _ _ _ => true, fun _ => none,
          fun _ => MAP_FAILED, fun _ => 0, fun _ _ => true, fun _ _ => 0, fun _ => 0⟩ 65536 0
      = none) := by
  decide

theorem fromCode_mmap_eq (target : Target) (ndebug : Bool) (host : FunctionHost)
    (code size : Nat) (ht : target = Target.macos ∨ target = Target.other) :
    CMemoryFunction.fromCode target ndebug host code size =
      if assertHolds ndebug (decide (host.mmap size ≠ MAP_FAILED))
          && memcpyCompletes (host.mmap size)
            (if host.mmap size = MAP_FAILED then 0 else size) size
          && assertHolds ndebug (decide (host.mmap size &&& (BLOCK_ALIGN - 1) = 0)) then
        some (⟨host.mmap size, size, target.apple && envTxm host, 0, 0, 0⟩, [])
      else none := by
  rcases ht with ht | ht
  · subst ht; simp [CMemoryFunction.fromCode, legacyConstruct]
  · subst ht; simp [CMemoryFunction.fromCode, legacyConstruct]

theorem machvmConstruct_failed (ndebug : Bool) (host : FunctionHost) (size : Nat)
    (txmMode : Bool) (protection : Prot)
    (hfail : host.vm_allocate (machvmAllocSize host size) = none) :
    (∀ f calls, machvmConstruct ndebug host size txmMode protection = some (f, calls) →
      size = 0 ∧ f.IsEmpty = true) ∧
    (size = 0 → ndebug = true →
      (machvmConstruct ndebug host size txmMode protection).isSome = true) := by
  constructor
  · intro f calls h
    simp only [machvmConstruct, hfail] at h
    split at h
    · rename_i hc
      simp only [Option.some.injEq, Prod.mk.injEq] at h
      simp only [memcpyCompletes, Bool.and_eq_true, Bool.or_eq_true, decide_eq_true_eq] at hc
      refine ⟨?_, by rw [← h.1]; simp [CMemoryFunction.IsEmpty]⟩
      rcases hc.1.1 with h0 | h0
      · exact h0
      · exact absurd rfl h0.1
    · cases h
  · intro h0 hn
    simp [machvmConstruct, hfail, assertHolds, hn, memcpyCompletes, h0]

theorem legacyConstruct_machvm_failed (target : Target) (ndebug : Bool) (host : FunctionHost)
    (code size : Nat) (txmMode : Bool)
    (ht : target = Target.iphone ∨ target = Target.appleOther)
    (hfail : host.vm_allocate (machvmAllocSize host size) = none) :
    (∀ f calls, legacyConstruct target ndebug host code size txmMode = some (f, calls) →
      size = 0 ∧ f.IsEmpty = true) ∧
    (size = 0 → ndebug = true →
      (legacyConstruct target ndebug host code size txmMode).isSome = true) := by
  rcases ht with ht | ht
  · subst ht; exact machvmConstruct_failed ndebug host size txmMode PROT_RX hfail
  · subst ht; exact machvmConstruct_failed ndebug host size txmMode PROT_RWX hfail

theorem txmBlock_size_zero (host : FunctionHost) : txmBlock host 0 ≠ TxmOutcome.faulted := by
  unfold txmBlock
  simp only [memcpyCompletes, decide_True, Bool.true_or, if_true]
  split
  · split
    · split <;> simp
    · simp
  · simp

/-- C4 (amended): a failed host allocation. On the Mach-VM backend, if `vm_allocate` fails,
`m_code` is never written: the legacy code builds a handle only for size 0 (for a larger
size the copy to `nullptr` faults), it does so when assertions are compiled out, and that
handle is empty; any other handle is the one built by the TXM block, which does not use
`vm_allocate`. On the mmap backend, if `mmap` returns `MAP_FAILED`, no empty handle is ever
produced: for a size above 0, or with assertions enabled, no handle is built at all, and for
size 0 with assertions compiled out the handle built holds `MAP_FAILED` in `m_code`, for
which `IsEmpty()` is false. -/
theorem failed_allocation_outcome (target : Target) (ndebug : Bool) (host : FunctionHost)
    (code size : Nat) :
    ((target = Target.iphone ∨ target = Target.appleOther) →
      host.vm_allocate (machvmAllocSize host size) = none →
      (∀ f calls, CMemoryFunction.fromCode target ndebug host code size = some (f, calls) →
        (size = 0 ∧ f.IsEmpty = true) ∨ ∃ c, txmBlock host size = TxmOutcome.built f c) ∧
      (size = 0 → ndebug = true →
        (CMemoryFunction.fromCode target ndebug host code size).isSome = true)) ∧
    ((target = Target.macos ∨ target = Target.other) → host.mmap size = MAP_FAILED →
      (∀ f calls, CMemoryFunction.fromCode target ndebug host code size = some (f, calls) →
        size = 0 ∧ ndebug = true ∧ f.m_code = MAP_FAILED ∧ f.IsEmpty = false) ∧
      (size = 0 → ndebug = true →
        (CMemoryFunction.fromCode target ndebug host code size).isSome = true) ∧
      (0 < size ∨ ndebug = false →
        CMemoryFunction.fromCode target ndebug host code size = none)) := by
  constructor
  · intro ht hfail
    have hleg := fun m => legacyConstruct_machvm_failed target ndebug host code size m ht hfail
    rcases ht with ht | ht
    · subst ht
      by_cases hc : envTxm host = true ∧ host.BreakGetJITMapping_linked = true
      · have hfc : CMemoryFunction.fromCode Target.iphone ndebug host code size =
            match txmBlock host size with
            | TxmOutcome.built f calls => some (f, calls)
            | TxmOutcome.fellThrough calls =>
              (legacyConstruct Target.iphone ndebug host code size false).map
                (fun built => (built.1, calls ++ built.2))
            | TxmOutcome.faulted => none := by
          simp [CMemoryFunction.fromCode, Target.apple, hc.1, hc.2]
        rw [hfc]
        cases hb : txmBlock host size with
        | built g calls0 =>
          refine ⟨?_, fun _ _ => rfl⟩
          intro f calls h
          right
          simp only [Option.some.injEq, Prod.mk.injEq] at h
          exact ⟨calls0, by rw [h.1]⟩
        | fellThrough calls0 =>
          simp only
          constructor
          · intro f calls h
            left
            rw [Option.map_eq_some'] at h
            obtain ⟨r, hr, hrf⟩ := h
            obtain ⟨g, more⟩ := r
            simp only [Prod.mk.injEq] at hrf
            rw [← hrf.1]
            exact (hleg false).1 g more hr
          · intro h0 hn
            have := (hleg false).2 h0 hn
            simpa [Option.isSome_map'] using this
        | faulted =>
          simp only
          constructor
          · intro f calls h; cases h
          · intro h0 _
            rw [h0] at hb
            exact absurd hb (txmBlock_size_zero host)
      · have hfc : CMemoryFunction.fromCode Target.iphone ndebug host code size =
            legacyConstruct Target.iphone ndebug host code size
              (Target.iphone.apple && envTxm host) := by
          unfold CMemoryFunction.fromCode
          rw [if_neg]
          intro hcon
          exact hc ⟨by simpa [Target.apple] using hcon.2.1, hcon.2.2⟩
        rw [hfc]
        exact ⟨fun f calls h => Or.inl ((hleg _).1 f calls h), (hleg _).2⟩
    · subst ht
      have hfc : CMemoryFunction.fromCode Target.appleOther ndebug host code size =
          legacyConstruct Target.appleOther ndebug host code size
            (Target.appleOther.apple && envTxm host) := by
        simp [CMemoryFunction.fromCode]
      rw [hfc]
      exact ⟨fun f calls h => Or.inl ((hleg _).1 f calls h), (hleg _).2⟩
  · intro ht hfail
    have hM : (MAP_FAILED = 0) = False := by simp [MAP_FAILED, WORD]
    have hfc := fromCode_mmap_eq target ndebug host code size ht
    rw [hfail] at hfc
    have hcond : (assertHolds ndebug (decide (MAP_FAILED ≠ MAP_FAILED))
        && memcpyCompletes MAP_FAILED (if MAP_FAILED = MAP_FAILED then 0 else size) size
        && assertHolds ndebug (decide (MAP_FAILED &&& (BLOCK_ALIGN - 1) = 0)))
        = (ndebug && decide (size = 0)) := by
      by_cases h0 : size = 0 <;> cases ndebug <;> simp [assertHolds, memcpyCompletes, h0]
    rw [hcond] at hfc
    rw [hfc]
    refine ⟨?_, ?_, ?_⟩
    · intro f calls h
      by_cases hn : ndebug = true
      · by_cases h0 : size = 0
        · simp only [hn, h0, decide_True, Bool.and_self, if_true, Option.some.injEq,
            Prod.mk.injEq] at h
          exact ⟨h0, hn, by rw [← h.1], by rw [← h.1]; simp [CMemoryFunction.IsEmpty, hM]⟩
        · simp [hn, h0] at h
      · simp [hn] at h
    · intro h0 hn
      simp [hn, h0]
    · intro hor
      rcases hor with hpos | hnd
      · have hne : size ≠ 0 := by omega
        simp [hne]
      · simp [hnd]

/-- C4 (amended), instance: size 0 with assertions compiled out. A failing `vm_allocate` on
the Mach-VM backend (no TXM environment) and a failing `mmap` on the mmap backend both let
the construction complete. -/
theorem failed_allocation_outcome_witness :
    (CMemoryFunction.fromCode Target.iphone true
        ⟨none, false, 16384, fun _ => 0, fun _ _ => none, fun _ _ _ => true, fun _ => none,
          fun _ => MAP_FAILED, fun _ => 0, fun _ _ => true, fun _ _ => 0, fun _ => 0⟩ 65536
        0).isSome = true ∧
    (CMemoryFunction.fromCode Target.other true
        ⟨none, false, 16384, fun _ => 0, fun _ _ => none, fun _ _ _ => true, fun _ => none,
          fun _ => MAP_FAILED, fun _ => 0, fun _ _ => true, fun _ _ => 0, fun _ => 0⟩ 65536
        0).isSome = true :=
  ⟨((failed_allocation_outcome Target.iphone true
      ⟨none, false, 16384, fun _ => 0, fun _ _ => none, fun _ _ _ => true, fun _ => none,
        fun _ => MAP_FAILED, fun _ => 0, fun _ _ => true, fun _ _ => 0, fun _ => 0⟩ 65536
      0).1 (Or.inl rfl) rfl).2 rfl rfl,
    ((failed_allocation_outcome Target.other true
      ⟨none, false, 16384, fun _ => 0, fun _ _ => none, fun _ _ _ => true, fun _ => none,
        fun _ => MAP_FAILED, fun _ => 0, fun _ _ => true, fun _ _ => 0, fun _ => 0⟩ 65536
      0).2 (Or.inr rfl) rfl).2.1 rfl rfl⟩

theorem mem_storeRegion (regs : List (Nat × JITRegion)) (ptr : Nat) (v : JITRegion)
    (q : Nat × JITRegion) (h : q ∈ storeRegion regs ptr v) : q ∈ regs ∨ q.2 = v := by
  induction regs with
  | nil => simp [storeRegion] at h
  | cons pair rest ih =>
    by_cases hc : pair.2.contains ptr = true
    · rw [storeRegion, if_pos hc] at h
      cases List.mem_cons.1 h with
      | inl h1 => right; rw [h1]
      | inr h1 => left; exact List.mem_cons_of_mem _ h1
    · rw [storeRegion, if_neg hc] at h
      cases List.mem_cons.1 h with
      | inl h1 => left; rw [h1]; exact List.mem_cons_self _ _
      | inr h1 =>
        cases ih h1 with
        | inl h2 => left; exact List.mem_cons_of_mem _ h2
        | inr h2 => right; exact h2

theorem mem_mapAssign_cases (key : Nat) (value : JITRegion) (m : List (Nat × JITRegion))
    (x : Nat × JITRegion) (h : x ∈ mapAssign key value m) : x = (key, value) ∨ x ∈ m := by
  induction m with
  | nil => left; simpa [mapAssign] using h
  | cons pair rest ih =>
    by_cases h1 : key < pair.1
    · rw [mapAssign, if_pos h1] at h
      cases List.mem_cons.1 h with
      | inl h3 => left; exact h3
      | inr h3 => right; exact h3
    · by_cases h2 : key = pair.1
      · rw [mapAssign, if_neg h1, if_pos h2] at h
        cases List.mem_cons.1 h with
        | inl h3 => left; exact h3
        | inr h3 => right; exact List.mem_cons_of_mem _ h3
      · rw [mapAssign, if_neg h1, if_neg h2] at h
        cases List.mem_cons.1 h with
        | inl h3 => right; rw [h3]; exact List.mem_cons_self _ _
        | inr h3 =>
          cases ih h3 with
          | inl h4 => left; exact h4
          | inr h4 => right; exact List.mem_cons_of_mem _ h4

theorem mem_mapErase (key : Nat) (m : List (Nat × JITRegion)) (x : Nat × JITRegion) :
    x ∈ mapErase key m ↔ x ∈ m ∧ x.1 ≠ key := by
  simp [mapErase, List.mem_filter]

theorem depth_nonneg_step (t : JITMemoryTracker) (call : TrackerCall)
    (hinv : ∀ pair ∈ t.m_regions, 0 ≤ pair.2.nesting_counter)
    (hok : matchedCall t call = true) :
    ∀ pair ∈ (applyCall t call).1.m_regions, 0 ≤ pair.2.nesting_counter := by
  intro pair hmem
  cases call with
  | RegisterJITRegion ptr size =>
    cases mem_mapAssign_cases _ _ _ _ hmem with
    | inl h => rw [h]
    | inr h => exact hinv pair h
  | UnregisterJITRegion ptr =>
    exact hinv pair ((mem_mapErase _ _ _).1 hmem).1
  | JITRegionWriteEnableExecuteDisable ptr =>
    simp only [applyCall, JITRegionWriteEnableExecuteDisable] at hmem
    cases hf : FindRegion t.m_regions ptr with
    | none => rw [hf] at hmem; exact hinv pair hmem
    | some r =>
      rw [hf] at hmem
      obtain ⟨q, hq, hqr, _⟩ := FindRegion_some_mem _ _ _ hf
      have hr : 0 ≤ r.nesting_counter := hqr ▸ hinv q hq
      cases mem_storeRegion _ _ _ _ hmem with
      | inl h => exact hinv pair h
      | inr h => rw [h]; simp only; omega
  | JITRegionWriteDisableExecuteEnable ptr =>
    simp only [applyCall, JITRegionWriteDisableExecuteEnable] at hmem
    cases hf : FindRegion t.m_regions ptr with
    | none => rw [hf] at hmem; exact hinv pair hmem
    | some r =>
      rw [hf] at hmem
      have hr : 0 < r.nesting_counter := by
        simpa [matchedCall, hf] using hok
      cases mem_storeRegion _ _ _ _ hmem with
      | inl h => exact hinv pair h
      | inr h => rw [h]; simp only; omega

theorem depth_nonneg_run (calls : List TrackerCall) (t : JITMemoryTracker)
    (hinv : ∀ pair ∈ t.m_regions, 0 ≤ pair.2.nesting_counter)
    (hok : callsPass matchedCall calls t = true) :
    ∀ pair ∈ (runCalls calls t).m_regions, 0 ≤ pair.2.nesting_counter := by
  induction calls generalizing t with
  | nil => exact hinv
  | cons call rest ih =>
    simp only [callsPass, Bool.and_eq_true] at hok
    exact ih _ (depth_nonneg_step t call hinv hok.1) hok.2

/-- C11 (counterexample): from the empty registry, `RegisterJITRegion(4096, 4096)` followed by
one `JITRegionWriteDisableExecuteEnable(4096)` leaves the live region at depth -1. -/
theorem unmatched_end_negative_depth_counterexample :
    runCalls [TrackerCall.RegisterJITRegion 4096 4096,
        TrackerCall.JITRegionWriteDisableExecuteEnable 4096] ⟨[]⟩
      = ⟨[(4096, ⟨4096, 4096, -1⟩)]⟩ ∧
    ¬ (0 ≤ (⟨4096, 4096, -1⟩ : JITRegion).nesting_counter) := by
  decide

/-- C11 (amended): in every registry state reached from the empty registry by a sequence of
the four calls in which every `JITRegionWriteDisableExecuteEnable` is matched (its address
resolves to no region, or to a region whose depth is at least 1 at the call), every live
region's depth is `≥ 0`. -/
theorem depth_nonneg_of_matched (calls : List TrackerCall)
    (hok : callsPass matchedCall calls ⟨[]⟩ = true) :
    ∀ pair ∈ (runCalls calls ⟨[]⟩).m_regions, 0 ≤ pair.2.nesting_counter :=
  depth_nonneg_run calls ⟨[]⟩ (by simp) hok

/-- C11 (amended), instance: register, two begins, one end; every end is matched and the
region is left at depth 1. -/
theorem depth_nonneg_of_matched_witness :
    callsPass matchedCall [TrackerCall.RegisterJITRegion 4096 4096,
        TrackerCall.JITRegionWriteEnableExecuteDisable 5000,
        TrackerCall.JITRegionWriteEnableExecuteDisable 4096,
        TrackerCall.JITRegionWriteDisableExecuteEnable 6000] ⟨[]⟩ = true ∧
    0 ≤ (⟨4096, 4096, 1⟩ : JITRegion).nesting_counter :=
  ⟨by decide,
    depth_nonneg_of_matched [TrackerCall.RegisterJITRegion 4096 4096,
      TrackerCall.JITRegionWriteEnableExecuteDisable 5000,
      TrackerCall.JITRegionWriteEnableExecuteDisable 4096,
      TrackerCall.JITRegionWriteDisableExecuteEnable 6000] (by decide)
      (4096, ⟨4096, 4096, 1⟩) (by decide)⟩

theorem sorted_mapAssign (key : Nat) (value : JITRegion) (m : List (Nat × JITRegion))
    (h : m.Pairwise (fun p q => p.1 < q.1)) :
    (mapAssign key value m).Pairwise (fun p q => p.1 < q.1) := by
  induction m with
  | nil => simp [mapAssign]
  | cons pair rest ih =>
    obtain ⟨hhead, hrest⟩ := List.pairwise_cons.1 h
    by_cases h1 : key < pair.1
    · rw [mapAssign, if_pos h1]
      refine List.pairwise_cons.2 ⟨?_, h⟩
      intro x hx
      cases List.mem_cons.1 hx with
      | inl h3 => rw [h3]; exact h1
      | inr h3 => exact Nat.lt_trans h1 (hhead x h3)
    · by_cases h2 : key = pair.1
      · rw [mapAssign, if_neg h1, if_pos h2]
        refine List.pairwise_cons.2 ⟨?_, hrest⟩
        intro x hx
        have := hhead x hx
        simp only
        omega
      · rw [mapAssign, if_neg h1, if_neg h2]
        refine List.pairwise_cons.2 ⟨?_, ih hrest⟩
        intro x hx
        cases mem_mapAssign_cases _ _ _ _ hx with
        | inl h3 => rw [h3]; simp only; omega
        | inr h3 => exact hhead x h3

theorem storeRegion_keys (regs : List (Nat × JITRegion)) (ptr : Nat) (v : JITRegion) :
    (storeRegion regs ptr v).map Prod.fst = regs.map Prod.fst := by
  induction regs with
  | nil => rfl
  | cons pair rest ih =>
    by_cases hc : pair.2.contains ptr = true
    · simp [storeRegion, hc]
    · simp [storeRegion, hc, ih]

theorem sorted_storeRegion (regs : List (Nat × JITRegion)) (ptr : Nat) (v : JITRegion)
    (h : regs.Pairwise (fun p q => p.1 < q.1)) :
    (storeRegion regs ptr v).Pairwise (fun p q => p.1 < q.1) := by
  have h1 : (regs.map Prod.fst).Pairwise (fun a b => a < b) := List.pairwise_map.2 h
  rw [← storeRegion_keys regs ptr v] at h1
  exact List.pairwise_map.1 h1

theorem sorted_applyCall (t : JITMemoryTracker) (call : TrackerCall)
    (h : t.m_regions.Pairwise (fun p q => p.1 < q.1)) :
    (applyCall t call).1.m_regions.Pairwise (fun p q => p.1 < q.1) := by
  cases call with
  | RegisterJITRegion ptr size => exact sorted_mapAssign _ _ _ h
  | UnregisterJITRegion ptr => exact List.Pairwise.filter _ h
  | JITRegionWriteEnableExecuteDisable ptr =>
    simp only [applyCall, JITRegionWriteEnableExecuteDisable]
    cases FindRegion t.m_regions ptr with
    | none => exact h
    | some r => exact sorted_storeRegion _ _ _ h
  | JITRegionWriteDisableExecuteEnable ptr =>
    simp only [applyCall, JITRegionWriteDisableExecuteEnable]
    cases FindRegion t.m_regions ptr with
    | none => exact h
    | some r => exact sorted_storeRegion _ _ _ h

theorem sorted_runCalls (calls : List TrackerCall) (t : JITMemoryTracker)
    (h : t.m_regions.Pairwise (fun p q => p.1 < q.1)) :
    (runCalls calls t).m_regions.Pairwise (fun p q => p.1 < q.1) := by
  induction calls generalizing t with
  | nil => exact h
  | cons call rest ih => exact ih _ (sorted_applyCall t call h)

theorem eq_of_key_eq (regs : List (Nat × JITRegion))
    (h : regs.Pairwise (fun p q => p.1 < q.1)) (p q : Nat × JITRegion)
    (hp : p ∈ regs) (hq : q ∈ regs) (hk : p.1 = q.1) : p = q := by
  induction regs with
  | nil => cases hp
  | cons pair rest ih =>
    obtain ⟨hhead, hrest⟩ := List.pairwise_cons.1 h
    cases List.mem_cons.1 hp with
    | inl h1 =>
      cases List.mem_cons.1 hq with
      | inl h2 => rw [h1, h2]
      | inr h2 => have := hhead q h2; rw [h1] at hk; omega
    | inr h1 =>
      cases List.mem_cons.1 hq with
      | inl h2 => have := hhead p h1; rw [h2] at hk; omega
      | inr h2 => exact ih hrest h1 h2

theorem rangesDisjoint_comm (a b : JITRegion) : rangesDisjoint a b = rangesDisjoint b a := by
  simp only [rangesDisjoint, decide_eq_decide]
  omega

theorem rangesDisjoint_iff (a b : JITRegion) :
    rangesDisjoint a b = true ↔
      ∀ x, ¬ ((a.start ≤ x ∧ x < a.start + a.size) ∧ (b.start ≤ x ∧ x < b.start + b.size)) := by
  simp only [rangesDisjoint, decide_eq_true_eq]
  constructor
  · intro h x
    omega
  · intro h
    by_contra hcon
    by_cases hle : a.start ≤ b.start
    · exact h b.start (by omega)
    · exact h a.start (by omega)

theorem storeRegion_shape_mem (regs : List (Nat × JITRegion)) (ptr : Nat) (r v : JITRegion)
    (hf : FindRegion regs ptr = some r) (hs : v.start = r.start) (hz : v.size = r.size)
    (q : Nat × JITRegion) (hq : q ∈ storeRegion regs ptr v) :
    ∃ p ∈ regs, p.1 = q.1 ∧ p.2.start = q.2.start ∧ p.2.size = q.2.size := by
  induction regs with
  | nil => simp [FindRegion] at hf
  | cons pair rest ih =>
    by_cases hc : pair.2.contains ptr = true
    · have hr : pair.2 = r := by simpa [FindRegion, hc] using hf
      rw [storeRegion, if_pos hc] at hq
      cases List.mem_cons.1 hq with
      | inl h1 =>
        refine ⟨pair, List.mem_cons_self _ _, ?_, ?_, ?_⟩
        · rw [h1]
        · rw [h1, hr, hs]
        · rw [h1, hr, hz]
      | inr h1 => exact ⟨q, List.mem_cons_of_mem _ h1, rfl, rfl, rfl⟩
    · have h2 : FindRegion rest ptr = some r := by simpa [FindRegion, hc] using hf
      rw [storeRegion, if_neg hc] at hq
      cases List.mem_cons.1 hq with
      | inl h1 => exact ⟨q, by rw [h1]; exact List.mem_cons_self _ _, rfl, rfl, rfl⟩
      | inr h1 =>
        obtain ⟨p, hp, hpk⟩ := ih h2 h1
        exact ⟨p, List.mem_cons_of_mem _ hp, hpk⟩

theorem rangesDisjoint_congr (a b c d : JITRegion) (h1 : a.start = c.start)
    (h2 : a.size = c.size) (h3 : b.start = d.start) (h4 : b.size = d.size) :
    rangesDisjoint a b = rangesDisjoint c d := by
  simp only [rangesDisjoint, h1, h2, h3, h4]

theorem disjoint_storeRegion (regs : List (Nat × JITRegion)) (ptr : Nat) (r v : JITRegion)
    (hf : FindRegion regs ptr = some r) (hs : v.start = r.start) (hz : v.size = r.size)
    (hD : ∀ p ∈ regs, ∀ q ∈ regs, p.1 ≠ q.1 → rangesDisjoint p.2 q.2 = true) :
    ∀ p ∈ storeRegion regs ptr v, ∀ q ∈ storeRegion regs ptr v, p.1 ≠ q.1 →
      rangesDisjoint p.2 q.2 = true := by
  intro p hp q hq hne
  obtain ⟨p0, hp0, hpk, hps, hpz⟩ := storeRegion_shape_mem regs ptr r v hf hs hz p hp
  obtain ⟨q0, hq0, hqk, hqs, hqz⟩ := storeRegion_shape_mem regs ptr r v hf hs hz q hq
  rw [← rangesDisjoint_congr p0.2 q0.2 p.2 q.2 hps hpz hqs hqz]
  exact hD p0 hp0 q0 hq0 (by rw [hpk, hqk]; exact hne)

theorem disjoint_applyCall (t : JITMemoryTracker) (call : TrackerCall)
    (hD : ∀ p ∈ t.m_regions, ∀ q ∈ t.m_regions, p.1 ≠ q.1 → rangesDisjoint p.2 q.2 = true)
    (hok : separateCall t call = true) :
    ∀ p ∈ (applyCall t call).1.m_regions, ∀ q ∈ (applyCall t call).1.m_regions,
      p.1 ≠ q.1 → rangesDisjoint p.2 q.2 = true := by
  cases call with
  | RegisterJITRegion ptr size =>
    have hguard : ∀ x ∈ t.m_regions, x.1 ≠ ptr →
        rangesDisjoint ⟨ptr, size, 0⟩ x.2 = true := by
      intro x hx hne
      have := (List.all_eq_true.1 hok) x hx
      simpa [hne] using this
    intro p hp q hq hne
    cases mem_mapAssign_cases _ _ _ _ hp with
    | inl h1 =>
      cases mem_mapAssign_cases _ _ _ _ hq with
      | inl h2 => rw [h1, h2] at hne; exact absurd rfl hne
      | inr h2 =>
        rw [h1] at hne ⊢
        exact hguard q h2 (fun h => hne h.symm)
    | inr h1 =>
      cases mem_mapAssign_cases _ _ _ _ hq with
      | inl h2 =>
        rw [h2] at hne ⊢
        rw [rangesDisjoint_comm]
        exact hguard p h1 hne
      | inr h2 => exact hD p h1 q h2 hne
  | UnregisterJITRegion ptr =>
    intro p hp q hq hne
    exact hD p ((mem_mapErase _ _ _).1 hp).1 q ((mem_mapErase _ _ _).1 hq).1 hne
  | JITRegionWriteEnableExecuteDisable ptr =>
    simp only [applyCall, JITRegionWriteEnableExecuteDisable]
    cases hf : FindRegion t.m_regions ptr with
    | none => exact hD
    | some r => exact disjoint_storeRegion _ _ r _ hf rfl rfl hD
  | JITRegionWriteDisableExecuteEnable ptr =>
    simp only [applyCall, JITRegionWriteDisableExecuteEnable]
    cases hf : FindRegion t.m_regions ptr with
    | none => exact hD
    | some r => exact disjoint_storeRegion _ _ r _ hf rfl rfl hD

theorem disjoint_runCalls (calls : List TrackerCall) (t : JITMemoryTracker)
    (hD : ∀ p ∈ t.m_regions, ∀ q ∈ t.m_regions, p.1 ≠ q.1 → rangesDisjoint p.2 q.2 = true)
    (hok : callsPass separateCall calls t = true) :
    ∀ p ∈ (runCalls calls t).m_regions, ∀ q ∈ (runCalls calls t).m_regions,
      p.1 ≠ q.1 → rangesDisjoint p.2 q.2 = true := by
  induction calls generalizing t with
  | nil => exact hD
  | cons call rest ih =>
    simp only [callsPass, Bool.and_eq_true] at hok
    exact ih _ (disjoint_applyCall t call hD hok.1) hok.2

/-- C12 (counterexample): from the empty registry, `RegisterJITRegion(4096, 8192)` followed by
`RegisterJITRegion(8192, 4096)` leaves two distinct live regions, `[4096, 12288)` and
`[8192, 12288)`, and the byte 8192 lies in both. -/
theorem overlapping_registrations_counterexample :
    runCalls [TrackerCall.RegisterJITRegion 4096 8192,
        TrackerCall.RegisterJITRegion 8192 4096] ⟨[]⟩
      = ⟨[(4096, ⟨4096, 8192, 0⟩), (8192, ⟨8192, 4096, 0⟩)]⟩ ∧
    (⟨4096, 8192, 0⟩ : JITRegion).contains 8192 = true ∧
    (⟨8192, 4096, 0⟩ : JITRegion).contains 8192 = true := by
  decide

/-- C12 (amended): in every registry state reached from the empty registry by a sequence of
calls in which every `RegisterJITRegion(a, s)` registers a range `[a, a + s)` that has no
byte in common with the range of any live region registered at another address, the
half-open byte ranges `[start, start + size)` of any two distinct live regions are disjoint.
(`UnregisterJITRegion` and the two bracket calls are unrestricted.) -/
theorem ranges_disjoint_of_separate (calls : List TrackerCall)
    (hok : callsPass separateCall calls ⟨[]⟩ = true) :
    ∀ p ∈ (runCalls calls ⟨[]⟩).m_regions, ∀ q ∈ (runCalls calls ⟨[]⟩).m_regions, p ≠ q →
      ∀ x, ¬ ((p.2.start ≤ x ∧ x < p.2.start + p.2.size) ∧
        (q.2.start ≤ x ∧ x < q.2.start + q.2.size)) := by
  intro p hp q hq hne
  have hsorted := sorted_runCalls calls ⟨[]⟩ List.Pairwise.nil
  have hD := disjoint_runCalls calls ⟨[]⟩ (by simp) hok
  have hkey : p.1 ≠ q.1 := fun hk => hne (eq_of_key_eq _ hsorted p q hp hq hk)
  exact (rangesDisjoint_iff p.2 q.2).1 (hD p hp q hq hkey)

/-- C12 (amended), instance: two adjacent ranges, the first registered again with a smaller
size, the second removed, a third registered in the gap; the regions left, `[4096, 5120)`
and `[6000, 6100)`, do not share the byte 6000. -/
theorem ranges_disjoint_of_separate_witness :
    callsPass separateCall [TrackerCall.RegisterJITRegion 4096 4096,
        TrackerCall.RegisterJITRegion 8192 4096, TrackerCall.RegisterJITRegion 4096 1024,
        TrackerCall.UnregisterJITRegion 8192,
        TrackerCall.RegisterJITRegion 6000 100] ⟨[]⟩ = true ∧
    ¬ (((4096 : Nat) ≤ 6000 ∧ 6000 < 4096 + 1024) ∧ ((6000 : Nat) ≤ 6000 ∧ 6000 < 6000 + 100)) :=
  ⟨by decide,
    ranges_disjoint_of_separate [TrackerCall.RegisterJITRegion 4096 4096,
      TrackerCall.RegisterJITRegion 8192 4096, TrackerCall.RegisterJITRegion 4096 1024,
      TrackerCall.UnregisterJITRegion 8192,
      TrackerCall.RegisterJITRegion 6000 100] (by decide)
      (4096, ⟨4096, 1024, 0⟩) (by decide) (6000, ⟨6000, 100, 0⟩) (by decide) (by decide)
      6000⟩

theorem filter_key_of_gt (key : Nat) (m : List (Nat × JITRegion))
    (h : ∀ x ∈ m, key < x.1) : m.filter (fun p => decide (p.1 = key)) = [] := by
  rw [List.filter_eq_nil_iff]
  intro x hx
  have := h x hx
  simp only [decide_eq_true_eq]
  omega

theorem filter_key_mapAssign (key : Nat) (value : JITRegion) (m : List (Nat × JITRegion))
    (h : m.Pairwise (fun p q => p.1 < q.1)) :
    (mapAssign key value m).filter (fun p => decide (p.1 = key)) = [(key, value)] := by
  induction m with
  | nil => simp [mapAssign]
  | cons pair rest ih =>
    obtain ⟨hhead, hrest⟩ := List.pairwise_cons.1 h
    by_cases h1 : key < pair.1
    · rw [mapAssign, if_pos h1, List.filter_cons_of_pos (by simp)]
      rw [filter_key_of_gt key (pair :: rest)]
      intro x hx
      cases List.mem_cons.1 hx with
      | inl h3 => rw [h3]; exact h1
      | inr h3 => exact Nat.lt_trans h1 (hhead x h3)
    · by_cases h2 : key = pair.1
      · rw [mapAssign, if_neg h1, if_pos h2, List.filter_cons_of_pos (by simp)]
        rw [filter_key_of_gt key rest]
        intro x hx
        have := hhead x hx
        omega
      · rw [mapAssign, if_neg h1, if_neg h2, List.filter_cons_of_neg]
        · exact ih hrest
        · simp only [decide_eq_true_eq]
          exact fun hk => h2 hk.symm

theorem filter_other_mapAssign (key : Nat) (value : JITRegion)
    (m : List (Nat × JITRegion)) :
    (mapAssign key value m).filter (fun p => decide (p.1 ≠ key))
      = m.filter (fun p => decide (p.1 ≠ key)) := by
  induction m with
  | nil => simp [mapAssign]
  | cons pair rest ih =>
    by_cases h1 : key < pair.1
    · rw [mapAssign, if_pos h1, List.filter_cons_of_neg (by simp)]
    · by_cases h2 : key = pair.1
      · rw [mapAssign, if_neg h1, if_pos h2, List.filter_cons_of_neg (by simp),
          List.filter_cons_of_neg (by simp [h2])]
      · have hk : pair.1 ≠ key := fun hk => h2 hk.symm
        rw [mapAssign, if_neg h1, if_neg h2, List.filter_cons_of_pos (by simp [hk]),
          List.filter_cons_of_pos (by simp [hk]), ih]

/-- C13: for every registry (a `std::map`, so its keys are strictly ascending), address `a`
and size `s`, `RegisterJITRegion(a, s)` yields a registry in which the entries keyed by `a`
are exactly the one entry `(start = a, size = s, depth = 0)`, whether or not `a` was
registered before; the entries keyed by other addresses are the same as before, in the same
order; and the result is again a map with strictly ascending keys. The function is total:
it never fails. -/
theorem RegisterJITRegion_entry (t : JITMemoryTracker) (a s : Nat)
    (hmap : t.m_regions.Pairwise (fun p q => p.1 < q.1)) :
    (RegisterJITRegion t a s).m_regions.filter (fun p => decide (p.1 = a))
      = [(a, ⟨a, s, 0⟩)] ∧
    (RegisterJITRegion t a s).m_regions.filter (fun p => decide (p.1 ≠ a))
      = t.m_regions.filter (fun p => decide (p.1 ≠ a)) ∧
    (RegisterJITRegion t a s).m_regions.Pairwise (fun p q => p.1 < q.1) :=
  ⟨filter_key_mapAssign a ⟨a, s, 0⟩ t.m_regions hmap,
    filter_other_mapAssign a ⟨a, s, 0⟩ t.m_regions,
    sorted_mapAssign a ⟨a, s, 0⟩ t.m_regions hmap⟩

/-- C13, instance: the address 8192 is already registered with size 4096 at depth 2; it is
registered again with size 100. -/
theorem RegisterJITRegion_entry_witness :
    (RegisterJITRegion ⟨[(4096, ⟨4096, 4096, 1⟩), (8192, ⟨8192, 4096, 2⟩)]⟩ 8192
        100).m_regions.filter (fun p => decide (p.1 = 8192))
      = [(8192, ⟨8192, 100, 0⟩)] ∧
    (RegisterJITRegion ⟨[(4096, ⟨4096, 4096, 1⟩), (8192, ⟨8192, 4096, 2⟩)]⟩ 8192
        100).m_regions.filter (fun p => decide (p.1 ≠ 8192))
      = [(4096, ⟨4096, 4096, 1⟩)] :=
  have h := RegisterJITRegion_entry ⟨[(4096, ⟨4096, 4096, 1⟩), (8192, ⟨8192, 4096, 2⟩)]⟩
    8192 100 (by decide)
  ⟨h.1, h.2.1⟩

theorem storeRegion_mem_sorted (regs : List (Nat × JITRegion)) (ptr : Nat) (r : JITRegion)
    (hsorted : regs.Pairwise (fun p q => p.1 < q.1)) (hf : FindRegion regs ptr = some r) :
    ∃ k, (k, r) ∈ regs ∧
      ∀ v, ∀ q ∈ storeRegion regs ptr v, q = (k, v) ∨ (q ∈ regs ∧ q.1 ≠ k) := by
  induction regs with
  | nil => simp [FindRegion] at hf
  | cons pair rest ih =>
    obtain ⟨hhead, hrest⟩ := List.pairwise_cons.1 hsorted
    by_cases hc : pair.2.contains ptr = true
    · have hr : pair.2 = r := by simpa [FindRegion, hc] using hf
      refine ⟨pair.1, by rw [← hr]; exact List.mem_cons_self _ _, ?_⟩
      intro v q hq
      rw [storeRegion, if_pos hc] at hq
      cases List.mem_cons.1 hq with
      | inl h1 => left; exact h1
      | inr h1 =>
        right
        have := hhead q h1
        exact ⟨List.mem_cons_of_mem _ h1, by omega⟩
    · have h2 : FindRegion rest ptr = some r := by simpa [FindRegion, hc] using hf
      obtain ⟨k, hk, hall⟩ := ih hrest h2
      refine ⟨k, List.mem_cons_of_mem _ hk, ?_⟩
      intro v q hq
      rw [storeRegion, if_neg hc] at hq
      cases List.mem_cons.1 hq with
      | inl h1 =>
        right
        have := hhead (k, r) hk
        rw [h1]
        exact ⟨List.mem_cons_self _ _, by simp only at this; omega⟩
      | inr h1 =>
        cases hall v q h1 with
        | inl h3 => left; exact h3
        | inr h3 => right; exact ⟨List.mem_cons_of_mem _ h3.1, h3.2⟩

theorem separateCall_of_freshCall (t : JITMemoryTracker) (call : TrackerCall)
    (h : freshCall t call = true) : separateCall t call = true := by
  cases call with
  | RegisterJITRegion ptr size =>
    simp only [freshCall, separateCall, List.all_eq_true] at h ⊢
    intro x hx
    have := h x hx
    simp only [Bool.and_eq_true] at this
    simp [this.2]
  | UnregisterJITRegion ptr => rfl
  | JITRegionWriteEnableExecuteDisable ptr => rfl
  | JITRegionWriteDisableExecuteEnable ptr => rfl

/-- The protections after a bracket call that found the region `r` of the entry keyed `k`
and stored the depth `c`, when the protection changed to `prot` exactly if `change` holds,
keep every live region read+write when its depth is positive and read+execute otherwise. -/
theorem protection_storeRegion (regs : List (Nat × JITRegion)) (pages : Nat → Prot)
    (ptr : Nat) (r : JITRegion) (c : Int) (calls : List HostCall)
    (hsorted : regs.Pairwise (fun p q => p.1 < q.1))
    (hD : ∀ p ∈ regs, ∀ q ∈ regs, p.1 ≠ q.1 → rangesDisjoint p.2 q.2 = true)
    (hP : ∀ p ∈ regs, ∀ x, p.2.contains x = true →
      pages x = if 0 < p.2.nesting_counter then PROT_RW else PROT_RX)
    (hf : FindRegion regs ptr = some r)
    (hcalls : calls = [] ∧ ((0 < c) ↔ (0 < r.nesting_counter)) ∨
      calls = [HostCall.mprotect r.start r.size (if 0 < c then PROT_RW else PROT_RX)]) :
    ∀ p ∈ storeRegion regs ptr ⟨r.start, r.size, c⟩, ∀ x, p.2.contains x = true →
      calls.foldl applyHostCall pages x
        = if 0 < p.2.nesting_counter then PROT_RW else PROT_RX := by
  obtain ⟨k, hk, hall⟩ := storeRegion_mem_sorted regs ptr r hsorted hf
  intro p hp x hx
  cases hall _ p hp with
  | inl h1 =>
    rw [h1] at hx ⊢
    have hxr : r.contains x = true := by
      simpa [JITRegion.contains] using hx
    cases hcalls with
    | inl h2 =>
      rw [h2.1]
      simp only [List.foldl_nil]
      rw [hP (k, r) hk x hxr]
      simp only [h2.2]
    | inr h2 =>
      rw [h2]
      have hin := (contains_iff r x).1 hxr
      simp [applyHostCall, setProtection, hin]
  | inr h1 =>
    have hdis := hD p h1.1 (k, r) hk h1.2
    have hnot : ¬ (r.start ≤ x ∧ x < r.start + r.size) := by
      intro hin
      exact (rangesDisjoint_iff p.2 r).1 hdis x ⟨(contains_iff p.2 x).1 hx, hin⟩
    have hsame : calls.foldl applyHostCall pages x = pages x := by
      cases hcalls with
      | inl h2 => rw [h2.1]; rfl
      | inr h2 => rw [h2]; simp [applyHostCall, setProtection, hnot]
    rw [hsame]
    exact hP p h1.1 x hx

theorem World.apply_tracker (w : World) (call : TrackerCall) :
    (w.apply call).tracker = (applyCall w.tracker call).1 := by
  cases call <;> rfl

theorem protection_apply (w : World) (call : TrackerCall)
    (hsorted : w.tracker.m_regions.Pairwise (fun p q => p.1 < q.1))
    (hD : ∀ p ∈ w.tracker.m_regions, ∀ q ∈ w.tracker.m_regions, p.1 ≠ q.1 →
      rangesDisjoint p.2 q.2 = true)
    (hP : ∀ p ∈ w.tracker.m_regions, ∀ x, p.2.contains x = true →
      w.pages x = if 0 < p.2.nesting_counter then PROT_RW else PROT_RX)
    (hok : freshCall w.tracker call = true) :
    ∀ p ∈ (w.apply call).tracker.m_regions, ∀ x, p.2.contains x = true →
      (w.apply call).pages x = if 0 < p.2.nesting_counter then PROT_RW else PROT_RX := by
  cases call with
  | RegisterJITRegion ptr size =>
    intro p hp x hx
    have hp2 : p ∈ mapAssign ptr ⟨ptr, size, 0⟩ w.tracker.m_regions := hp
    have hpages : (w.apply (TrackerCall.RegisterJITRegion ptr size)).pages
        = setProtection w.pages ptr size PROT_RX := rfl
    rw [hpages]
    cases mem_mapAssign_cases _ _ _ _ hp2 with
    | inl h1 =>
      rw [h1] at hx ⊢
      have hin := (contains_iff _ x).1 hx
      simp only at hin
      simp [setProtection, hin]
    | inr h1 =>
      have hg := (List.all_eq_true.1 hok) p h1
      simp only [Bool.and_eq_true] at hg
      have hnot : ¬ (ptr ≤ x ∧ x < ptr + size) := by
        intro hin
        exact (rangesDisjoint_iff ⟨ptr, size, 0⟩ p.2).1 hg.2 x
          ⟨hin, (contains_iff p.2 x).1 hx⟩
      simp only [setProtection, hnot, if_false]
      exact hP p h1 x hx
  | UnregisterJITRegion ptr =>
    intro p hp x hx
    have hp2 : p ∈ mapErase ptr w.tracker.m_regions := hp
    exact hP p ((mem_mapErase _ _ _).1 hp2).1 x hx
  | JITRegionWriteEnableExecuteDisable ptr =>
    simp only [World.apply, applyCall, JITRegionWriteEnableExecuteDisable]
    cases hf : FindRegion w.tracker.m_regions ptr with
    | none => exact hP
    | some r =>
      refine protection_storeRegion _ _ ptr r _ _ hsorted hD hP hf ?_
      by_cases h0 : r.nesting_counter = 0
      · right; simp [h0]
      · left; simp only [h0, if_false, true_and]; omega
  | JITRegionWriteDisableExecuteEnable ptr =>
    simp only [World.apply, applyCall, JITRegionWriteDisableExecuteEnable]
    cases hf : FindRegion w.tracker.m_regions ptr with
    | none => exact hP
    | some r =>
      refine protection_storeRegion _ _ ptr r _ _ hsorted hD hP hf ?_
      by_cases h0 : r.nesting_counter - 1 = 0
      · right; simp [h0]
      · left; simp only [h0, if_false, true_and]; omega

theorem protection_run (calls : List TrackerCall) (w : World)
    (hsorted : w.tracker.m_regions.Pairwise (fun p q => p.1 < q.1))
    (hD : ∀ p ∈ w.tracker.m_regions, ∀ q ∈ w.tracker.m_regions, p.1 ≠ q.1 →
      rangesDisjoint p.2 q.2 = true)
    (hP : ∀ p ∈ w.tracker.m_regions, ∀ x, p.2.contains x = true →
      w.pages x = if 0 < p.2.nesting_counter then PROT_RW else PROT_RX)
    (hok : callsPass freshCall calls w.tracker = true) :
    ∀ p ∈ (World.run calls w).tracker.m_regions, ∀ x, p.2.contains x = true →
      (World.run calls w).pages x
        = if 0 < p.2.nesting_counter then PROT_RW else PROT_RX := by
  induction calls generalizing w with
  | nil => exact hP
  | cons call rest ih =>
    simp only [callsPass, Bool.and_eq_true] at hok
    have ht := World.apply_tracker w call
    refine ih (w.apply call) ?_ ?_ (protection_apply w call hsorted hD hP hok.1) ?_
    · rw [ht]; exact sorted_applyCall _ _ hsorted
    · rw [ht]
      exact disjoint_applyCall _ _ hD (separateCall_of_freshCall _ _ hok.1)
    · rw [ht]; exact hok.2

/-- C14: with every registered range read+execute from its registration on and the
registry's protection changes always succeeding, in every state reached from the empty
registry by a sequence of calls in which each `RegisterJITRegion` registers an address not
currently registered, with a range that overlaps no live region (`UnregisterJITRegion` and
the two bracket calls in any order, paired or not), every byte of every live region is
read+write exactly when the region's depth is `> 0` and read+execute exactly when it is not;
it is never both writable and executable. -/
theorem write_xor_execute (calls : List TrackerCall) (pages : Nat → Prot)
    (hok : callsPass freshCall calls ⟨[]⟩ = true) :
    ∀ p ∈ (World.run calls ⟨⟨[]⟩, pages⟩).tracker.m_regions, ∀ x,
      p.2.start ≤ x → x < p.2.start + p.2.size →
      ((World.run calls ⟨⟨[]⟩, pages⟩).pages x = PROT_RW ↔ 0 < p.2.nesting_counter) ∧
      ((World.run calls ⟨⟨[]⟩, pages⟩).pages x = PROT_RX ↔ ¬ 0 < p.2.nesting_counter) ∧
      ¬ (((World.run calls ⟨⟨[]⟩, pages⟩).pages x).write = true ∧
        ((World.run calls ⟨⟨[]⟩, pages⟩).pages x).exec = true) := by
  intro p hp x h1 h2
  have h := protection_run calls ⟨⟨[]⟩, pages⟩ List.Pairwise.nil (by simp) (by simp) hok p hp x
    ((contains_iff p.2 x).2 ⟨h1, h2⟩)
  rw [h]
  by_cases hd : 0 < p.2.nesting_counter
  · simp [hd, PROT_RW, PROT_RX]
  · simp [hd, PROT_RW, PROT_RX]

/-- C14, instance: two regions; the first is opened twice and closed once (depth 1), the
second is closed without having been opened (depth -1): the byte 5000 of the first is
read+write, the byte 9000 of the second is read+execute. -/
theorem write_xor_execute_witness :
    ((World.run [TrackerCall.RegisterJITRegion 4096 4096,
        TrackerCall.RegisterJITRegion 8192 4096,
        TrackerCall.JITRegionWriteEnableExecuteDisable 4096,
        TrackerCall.JITRegionWriteEnableExecuteDisable 5000,
        TrackerCall.JITRegionWriteDisableExecuteEnable 4096,
        TrackerCall.JITRegionWriteDisableExecuteEnable 9000]
        ⟨⟨[]⟩, fun _ => PROT_RWX⟩).pages 5000 = PROT_RW ↔ (0 : Int) < 1) ∧
    ((World.run [TrackerCall.RegisterJITRegion 4096 4096,
        TrackerCall.RegisterJITRegion 8192 4096,
        TrackerCall.JITRegionWriteEnableExecuteDisable 4096,
        TrackerCall.JITRegionWriteEnableExecuteDisable 5000,
        TrackerCall.JITRegionWriteDisableExecuteEnable 4096,
        TrackerCall.JITRegionWriteDisableExecuteEnable 9000]
        ⟨⟨[]⟩, fun _ => PROT_RWX⟩).pages 9000 = PROT_RX ↔ ¬ (0 : Int) < -1) :=
  ⟨(write_xor_execute [TrackerCall.RegisterJITRegion 4096 4096,
      TrackerCall.RegisterJITRegion 8192 4096,
      TrackerCall.JITRegionWriteEnableExecuteDisable 4096,
      TrackerCall.JITRegionWriteEnableExecuteDisable 5000,
      TrackerCall.JITRegionWriteDisableExecuteEnable 4096,
      TrackerCall.JITRegionWriteDisableExecuteEnable 9000] (fun _ => PROT_RWX) (by decide)
      (4096, ⟨4096, 4096, 1⟩) (by decide) 5000 (by decide) (by decide)).1,
    (write_xor_execute [TrackerCall.RegisterJITRegion 4096 4096,
      TrackerCall.RegisterJITRegion 8192 4096,
      TrackerCall.JITRegionWriteEnableExecuteDisable 4096,
      TrackerCall.JITRegionWriteEnableExecuteDisable 5000,
      TrackerCall.JITRegionWriteDisableExecuteEnable 4096,
      TrackerCall.JITRegionWriteDisableExecuteEnable 9000] (fun _ => PROT_RWX) (by decide)
      (8192, ⟨8192, 4096, -1⟩) (by decide) 9000 (by decide) (by decide)).2.1⟩

end CodeGen
